import Mathlib

/-!
# Verification of the sogni-gen request compiler and job orchestrator

Shallow embedding of the core logic of `sogni-gen.mjs` (request compilation,
seed derivation, multi-angle normalization, 360 segment planning, compound
workflow control flow, and the event-driven job orchestrators), together with
theorems settling the specification claims.

Modelling conventions:
* JavaScript numbers that are used as integers (`parseInt` results, counters,
  pixel sizes) are modelled as `Nat`/`Int`; fractional CLI numbers
  (`parseFloat` results such as LoRA strengths and guidance) are modelled as
  `Rat`.  No float rounding behaviour is relevant to any claim settled here.
* Asynchronous event streams are modelled as explicit lists of events folded
  over an explicit state, mirroring the listener bodies statement by statement.
-/

namespace SogniGen

/-- `Math.round(num / den)` for non-negative integers `num` and positive `den`:
`⌊num/den + 1/2⌋ = ⌊(2*num + den) / (2*den)⌋`.  Used for the per-segment
frame/duration split in `runMultiAngleFlow` (src/sogni-gen.mjs:1250,1252). -/
def jsRound (num den : Nat) : Nat :=
  (2 * num + den) / (2 * den)

/-! ## 360 stitched-video segment planning (src/sogni-gen.mjs:1246-1296)

The loop builds one image-to-video interpolation request per consecutive pair
of angle frames, wrapping the last angle back to the first:

    const segmentCount = videoFrames.length;
    let segmentDuration = options.duration;
    let segmentFrames = null;
    if (options.frames) {
      segmentFrames = Math.max(17, Math.round(options.frames / segmentCount));
    } else {
      segmentDuration = Math.max(1, Math.round(options.duration / segmentCount));
    }
    for (let i = 0; i < videoFrames.length; i++) {
      const startPath = videoFrames[i];
      const endPath = videoFrames[(i + 1) % videoFrames.length];
      ... if (segmentFrames) clipConfig.frames = segmentFrames;
          else clipConfig.duration = segmentDuration; ...
-/

/-- One compiled 360 interpolation segment: the start/end reference frames and
either a frame count or a duration, mirroring `clipConfig` fields
`referenceImage`, `referenceImageEnd`, `frames`, `duration`. -/
structure SegmentConfig where
  startFrame : String
  endFrame : String
  segFrames : Option Nat
  segDuration : Option Nat
  deriving Repr, DecidableEq

/-- JavaScript truthiness of `options.frames` (`null`/`0` are falsy). -/
def framesTruthy : Option Nat → Bool
  | none => false
  | some f => f ≠ 0

/-- The per-segment frame count when a total frame budget is set:
`Math.max(17, Math.round(options.frames / segmentCount))`. -/
def segmentFramesOf (frames segmentCount : Nat) : Nat :=
  max 17 (jsRound frames segmentCount)

/-- The per-segment duration when no frame budget is set:
`Math.max(1, Math.round(options.duration / segmentCount))`. -/
def segmentDurationOf (duration segmentCount : Nat) : Nat :=
  max 1 (jsRound duration segmentCount)

/-- The list of 360 segment configs compiled by the loop at
src/sogni-gen.mjs:1257-1296 from the downloaded angle frames. -/
def buildSegments (videoFrames : List String) (frames : Option Nat)
    (duration : Nat) : List SegmentConfig :=
  let k := videoFrames.length
  (List.range k).map fun i =>
    { startFrame := videoFrames.getD i ""
      endFrame := videoFrames.getD ((i + 1) % k) ""
      segFrames := if framesTruthy frames then some (segmentFramesOf (frames.getD 0) k) else none
      segDuration := if framesTruthy frames then none else some (segmentDurationOf duration k) }

/-! ## Multi-angle LoRA normalization (src/sogni-gen.mjs:659-693, 709-718)

Faithful translation of the `--multi-angle` LoRA/strength normalization block
followed by the global LoRA count checks that run immediately after it.  An
`Except` error corresponds to `console.error(...); process.exit(1)`. -/

/-- Result of a successful multi-angle normalization: the final LoRA id list,
the final strength list, and the effective angle strength. -/
structure MAResult where
  loras : List String
  loraStrengths : List Rat
  angleStrength : Rat
  deriving Repr, DecidableEq

/-- The multi-angle LoRA normalization (lines 659-693) followed by the
LoRA/strength count validations (lines 709-718). -/
def normalizeMultiAngleLoras (loras0 : List String) (strengths0 : List Rat)
    (angleStrength0 : Option Rat) : Except String MAResult :=
  -- lines 659-668: promote a single bare --lora-strength to the angle strength
  let step1 : Except String (List String × List Rat × Option Rat) :=
    if loras0.length = 0 ∧ strengths0.length > 0 then
      if strengths0.length > 1 then
        .error "--lora-strengths requires explicit --loras when using --multi-angle."
      else
        .ok (loras0, [], some (angleStrength0.getD (strengths0.headD 0)))
    else
      .ok (loras0, strengths0, angleStrength0)
  match step1 with
  | .error e => .error e
  | .ok (l1, s1, a1) =>
    -- line 672-674: default angle strength
    let s := a1.getD (9 / 10 : Rat)
    -- lines 676-684: ensure 'multiple_angles' is present, remember its index
    -- (`indexOf === -1` in the source is the membership test)
    let (l2, s2, idx) :=
      if "multiple_angles" ∈ l1 then (l1, s1, l1.indexOf "multiple_angles")
      else
        (l1 ++ ["multiple_angles"],
         if s1.length > 0 then s1 ++ [s] else s1,
         l1.length)
    -- lines 686-692: fill default strengths
    let s3 :=
      if s2.length = 0 ∧ l2.length > 0 then
        l2.map fun id => if id = "multiple_angles" then s else (1 : Rat)
      else if s2.length = l2.length then
        -- JS: if (loraStrengths[idx] === undefined || null) set it; in-range
        -- indices are never undefined, so this can only fire out of range.
        match s2[idx]? with
        | none => s2.set idx s
        | some _ => s2
      else s2
    -- lines 709-712
    if s3.length > 0 ∧ l2.length = 0 then
      .error "--lora-strength requires at least one --lora."
    -- lines 714-718
    else if s3.length > 0 ∧ l2.length > 0 ∧ s3.length ≠ l2.length then
      .error "--lora-strengths count must match --loras count."
    else
      .ok ⟨l2, s3, s⟩

/-! ## Compound 360 workflow control flow (src/sogni-gen.mjs:1143-1302)

`runMultiAngleFlow` runs the angle edit jobs strictly sequentially, downloading
each angle frame as it completes, then runs the interpolation segments strictly
sequentially, downloading each clip, and only after the whole segment loop
finishes does it call `buildConcatVideoFromClips` (line 1298).  A rejected
`await` anywhere aborts the function; the error propagates to `main`'s catch
block, which reports failure and exits non-zero.  No code path deletes a file
that was already downloaded. -/

/-- Outcome of one angle or segment job: the local file it produced, or the
failure message of the rejected promise. -/
inductive StageOutcome where
  | ok (file : String)
  | fail (msg : String)
  deriving Repr, DecidableEq

/-- Run stages `i, i+1, ..., i+n-1` in order against outcomes `res`, collecting
downloaded files; stop at the first failure. -/
def runStages (res : Nat → StageOutcome) : Nat → Nat → List String × Option String
  | _, 0 => ([], none)
  | i, n + 1 =>
    match res i with
    | .fail msg => ([], some msg)
    | .ok file =>
      let (files, err) := runStages res (i + 1) n
      (file :: files, err)

/-- Observable result of the compound 360 workflow: the angle frames and clips
downloaded to disk, whether the external concatenation step was invoked, and
the final reported outcome. -/
structure CompoundResult where
  angleFiles : List String
  clipFiles : List String
  concatInvoked : Bool
  outcome : Except String Unit
  deriving Repr

/-- The compound 360 workflow of `runMultiAngleFlow`: `angleCount` angle jobs
(lines 1143-1214), then one interpolation segment per downloaded angle frame
(lines 1257-1296), then the concatenation step (line 1298).  The first failing
stage aborts the whole flow; files downloaded earlier stay in the result. -/
def runCompound (angleCount : Nat) (angleRes segRes : Nat → StageOutcome) :
    CompoundResult :=
  let (angleFiles, angleErr) := runStages angleRes 0 angleCount
  match angleErr with
  | some msg => ⟨angleFiles, [], false, .error msg⟩
  | none =>
    let (clipFiles, segErr) := runStages segRes 0 angleFiles.length
    match segErr with
    | some msg => ⟨angleFiles, clipFiles, false, .error msg⟩
    | none => ⟨angleFiles, clipFiles, true, .ok ()⟩

/-! ## Job orchestration (src/sogni-gen.mjs:1032-1092 and 1415-1451)

Two orchestrators register transient listeners on the shared client and race a
timer:

* `runImageEditProjectWithEvents` (lines 1032-1092), used once per angle by the
  compound multi-angle workflow.  Its `onCompleted`/`onFailed` handlers filter
  events by `projectId` (latching it from the first accepted event when it is
  not yet known), and `cleanup()` clears the timer and removes both listeners
  before every `resolvePromise`/`rejectPromise` call and on submission
  rejection.
* the single-job path inside `main` (lines 1415-1451), which registers
  `JOB_COMPLETED`/`JOB_FAILED` (and, for video, `PROJECT_PROGRESS`) listeners
  that perform no correlation-id filtering and are never removed.

Events are modelled as a list folded over an explicit state; a handler body is
executed only while its listener is registered. -/

/-- One per-unit completion record as pushed by the handlers
(`imageUrl`/`seed`/`jobIndex`/`projectId`; the main path additionally copies
`videoUrl`, which is irrelevant to the claims). -/
structure UnitOutcome where
  imageUrl : Option String
  seed : Option Nat
  jobIndex : Nat
  projectId : Nat
  deriving Repr, DecidableEq

/-- Client lifecycle events as seen by the registered listeners.  `timerFired`
models the `setTimeout` callback, `progress` the video `PROJECT_PROGRESS`
event. -/
inductive OrchEvent where
  | completed (projectId : Nat) (imageUrl : Option String) (seed : Option Nat) (jobIndex : Nat)
  | failed (projectId : Nat) (msg : String)
  | progress (projectId : Nat) (percentage : Nat)
  | timerFired
  deriving Repr, DecidableEq

/-- Terminal status of an orchestration promise. -/
inductive Settled where
  | success (results : List UnitOutcome)
  | failure (msg : String)
  | timedOut
  deriving Repr

/-- State of one `runImageEditProjectWithEvents` orchestration.  `projectId` is
`none` until it is known from the submission response or latched from the
first accepted event; `listeners` records whether the two client listeners are
still registered; `timer` whether the timeout is still pending. -/
structure EditOrchState where
  projectId : Option Nat
  results : List UnitOutcome
  completed : Nat
  settledAs : Option Settled
  listeners : Bool
  timer : Bool
  deriving Repr

/-- Initial orchestration state: listeners registered, timer armed, and
`projectId` as known from `projectResult?.project?.id` (or still `none`). -/
def editInit (pid : Option Nat) : EditOrchState :=
  { projectId := pid, results := [], completed := 0, settledAs := none
    listeners := true, timer := true }

/-- `cleanup()` of `runImageEditProjectWithEvents` (lines 1069-1073):
`clearTimeout` plus removal of both listeners. -/
def editCleanup (s : EditOrchState) : EditOrchState :=
  { s with listeners := false, timer := false }

/-- One step of the `runImageEditProjectWithEvents` orchestration: the
`onCompleted` handler (lines 1044-1060), the `onFailed` handler (lines
1062-1067) and the timeout callback (lines 1075-1078).  A handler body runs
only while its listener is registered; the timeout callback only while the
timer is pending. -/
def editStep (expectedCount : Nat) (s : EditOrchState) (e : OrchEvent) : EditOrchState :=
  match e with
  | .completed pid url seed idx =>
    if s.listeners = false then s
    else if s.projectId.isSome ∧ s.projectId ≠ some pid then s
    else
      let s := { s with projectId := if s.projectId.isSome then s.projectId else some pid }
      let s := { s with
        results := s.results ++ [⟨url, seed, idx, pid⟩]
        completed := s.completed + 1 }
      if s.completed ≥ expectedCount then
        { editCleanup s with settledAs := some (.success s.results) }
      else s
  | .failed pid msg =>
    if s.listeners = false then s
    else if s.projectId.isSome ∧ s.projectId ≠ some pid then s
    else
      let s := { s with projectId := if s.projectId.isSome then s.projectId else some pid }
      { editCleanup s with settledAs := some (.failure msg) }
  | .progress _ _ => s
  | .timerFired =>
    if s.timer = false then s
    else { editCleanup s with settledAs := some .timedOut }

/-- Fold a stream of events over the orchestration state. -/
def editRun (expectedCount : Nat) (s : EditOrchState) (evs : List OrchEvent) : EditOrchState :=
  evs.foldl (editStep expectedCount) s

/-- State of the single-job orchestration in `main` (lines 1412-1451).  The
listeners registered there are never removed by any code path, so `listeners`
is set at registration and no step ever clears it. -/
structure MainOrchState where
  results : List UnitOutcome
  completedJobs : Nat
  settledAs : Option Settled
  listeners : Bool
  timer : Bool
  deriving Repr

/-- Initial state of `main`'s completion promise: timer armed (line 1416) and
listeners registered (lines 1420, 1438, 1445). -/
def mainInit : MainOrchState :=
  { results := [], completedJobs := 0, settledAs := none, listeners := true, timer := true }

/-- One step of `main`'s completion promise.  The `JOB_COMPLETED` handler
(lines 1420-1436) pushes every completion event with no correlation-id check,
and neither it nor the `JOB_FAILED` handler (lines 1438-1441) removes any
listener; a promise can only settle once, so a later resolve/reject is a
no-op. -/
def mainStep (count : Nat) (s : MainOrchState) (e : OrchEvent) : MainOrchState :=
  match e with
  | .completed pid url seed idx =>
    if s.listeners = false then s
    else
      let s := { s with
        results := s.results ++ [⟨url, seed, idx, pid⟩]
        completedJobs := s.completedJobs + 1 }
      if s.completedJobs ≥ count then
        { s with timer := false
                 settledAs := if s.settledAs.isSome then s.settledAs else some (.success s.results) }
      else s
  | .failed _ msg =>
    if s.listeners = false then s
    else { s with timer := false
                  settledAs := if s.settledAs.isSome then s.settledAs else some (.failure msg) }
  | .progress _ _ => s
  | .timerFired =>
    if s.timer = false then s
    else { s with timer := false
                  settledAs := if s.settledAs.isSome then s.settledAs else some .timedOut }

/-- Fold a stream of events over `main`'s orchestration state. -/
def mainRun (count : Nat) (s : MainOrchState) (evs : List OrchEvent) : MainOrchState :=
  evs.foldl (mainStep count) s

/-! ## The video submission path (src/sogni-gen.mjs:1453-1516)

The `projectConfig` handed to `client.createVideoProject` copies
`options.width`/`options.height` verbatim (lines 1477-1478); no code between
CLI parsing and submission rounds, validates or otherwise adjusts video
dimensions. -/

/-- The option fields consumed by the video submission path, after parsing,
config defaults and workflow validation.  Reference assets are modelled by
their presence (the buffers' contents are irrelevant here). -/
structure VideoOptions where
  model : String
  prompt : Option String
  count : Nat
  width : Nat
  height : Nat
  fps : Nat
  frames : Option Nat
  duration : Nat
  tokenType : Option String
  outputFormat : Option String
  autoResizeVideoAssets : Option Bool
  imageRef : Bool
  imageEndRef : Bool
  audioRef : Bool
  videoRef : Bool
  seed : Option Nat
  steps : Option Nat
  guidance : Option Rat
  deriving Repr

/-- The `projectConfig` object built at lines 1469-1514 (conditionally-assigned
keys are `Option`s; reference buffers are modelled by presence flags). -/
structure VideoProjectConfig where
  modelId : String
  positivePrompt : Option String
  negativePrompt : String
  stylePrompt : String
  numberOfMedia : Nat
  referenceImageSet : Bool
  fps : Nat
  width : Nat
  height : Nat
  tokenType : String
  waitForCompletion : Bool
  outputFormat : Option String
  autoResizeVideoAssets : Option Bool
  frames : Option Nat
  duration : Option Nat
  referenceImageEndSet : Bool
  referenceAudioSet : Bool
  referenceVideoSet : Bool
  seed : Option Nat
  steps : Option Nat
  guidance : Option Rat
  deriving Repr

/-- Faithful translation of the `projectConfig` construction for video jobs
(lines 1469-1514): dimensions are copied verbatim from the options. -/
def buildVideoProjectConfig (o : VideoOptions) : VideoProjectConfig :=
  { modelId := o.model
    positivePrompt := o.prompt
    negativePrompt := ""
    stylePrompt := ""
    numberOfMedia := o.count
    referenceImageSet := o.imageRef
    fps := o.fps
    width := o.width
    height := o.height
    tokenType := o.tokenType.getD "spark"
    waitForCompletion := false
    outputFormat := o.outputFormat
    autoResizeVideoAssets := o.autoResizeVideoAssets
    frames := if framesTruthy o.frames then o.frames else none
    duration := if framesTruthy o.frames then none else some o.duration
    referenceImageEndSet := o.imageEndRef
    referenceAudioSet := o.audioRef
    referenceVideoSet := o.videoRef
    seed := o.seed
    steps := o.steps
    guidance := o.guidance }

/-! ## Failure reporting (src/sogni-gen.mjs:845-856 and 1729-1739)

Validation failures during option processing print plain text to stderr and
call `process.exit(1)` without ever writing a JSON document, even when
`--json` was requested.  Errors caught by `main`'s catch block in JSON mode
emit `JSON.stringify({ success: false, error: error.message, prompt:
options.prompt })` — three keys, no `errorCode`, no `hint`, no
`errorDetails`. -/

/-- JSON values as far as the emitted payloads need them. -/
inductive JsonLite where
  | str (s : String)
  | boolean (b : Bool)
  | null
  deriving Repr, DecidableEq

/-- The error payload emitted by `main`'s catch block in JSON mode
(lines 1730-1735), as an ordered key/value list. -/
def catchErrorPayload (errMsg : String) (prompt : Option String) :
    List (String × JsonLite) :=
  [("success", .boolean false),
   ("error", .str errMsg),
   ("prompt", (prompt.map .str).getD .null)]

/-- The context-image capacity validation (lines 845-856).  `some msgs` means
the process prints `msgs` to stderr and exits with status 1 before any request
is submitted; no JSON document is written on this path.  `none` means the
check passes. -/
def contextImagesCheck (isVideo : Bool) (contextCount : Nat) (modelId : String)
    (maxImages : Nat) : Option (List String) :=
  if contextCount > 0 ∧ isVideo = false then
    if maxImages = 0 then
      some ["Error: Model " ++ modelId ++ " does not support context images.",
            "Try: qwen_image_edit_2511_fp8 or qwen_image_edit_2511_fp8_lightning"]
    else if contextCount > maxImages then
      some ["Error: Model " ++ modelId ++ " supports max " ++ toString maxImages ++
            " context images, got " ++ toString contextCount]
    else none
  else none

/-! ## SHA-256 (the `createHash('sha256')` digest used by `computePromptHashSeed`)

Executable byte-level SHA-256 over `Nat` with explicit `% 2^32` wherever the
32-bit words can overflow. -/

/-- Truncate to a 32-bit word. -/
def w32 (n : Nat) : Nat := n % 4294967296

/-- Right-rotate a 32-bit word by `n` bits. -/
def rotr (n x : Nat) : Nat := w32 (x / 2 ^ n + x % 2 ^ n * 2 ^ (32 - n))

/-- Logical right shift. -/
def shr (n x : Nat) : Nat := x / 2 ^ n

/-- Bitwise complement of a 32-bit word. -/
def bnot32 (x : Nat) : Nat := x ^^^ 4294967295

def bsig0 (x : Nat) : Nat := rotr 2 x ^^^ rotr 13 x ^^^ rotr 22 x
def bsig1 (x : Nat) : Nat := rotr 6 x ^^^ rotr 11 x ^^^ rotr 25 x
def ssig0 (x : Nat) : Nat := rotr 7 x ^^^ rotr 18 x ^^^ shr 3 x
def ssig1 (x : Nat) : Nat := rotr 17 x ^^^ rotr 19 x ^^^ shr 10 x
def chf (x y z : Nat) : Nat := (x &&& y) ^^^ (bnot32 x &&& z)
def majf (x y z : Nat) : Nat := (x &&& y) ^^^ (x &&& z) ^^^ (y &&& z)

/-- The 64 SHA-256 round constants (fractional parts of the cube roots of the
first 64 primes), written in decimal. -/
def sha256K : List Nat :=
  [1116352408, 1899447441, 3049323471, 3921009573, 961987163, 1508970993,
   2453635748, 2870763221, 3624381080, 310598401, 607225278, 1426881987,
   1925078388, 2162078206, 2614888103, 3248222580, 3835390401, 4022224774,
   264347078, 604807628, 770255983, 1249150122, 1555081692, 1996064986,
   2554220882, 2821834349, 2952996808, 3210313671, 3336571891, 3584528711,
   113926993, 338241895, 666307205, 773529912, 1294757372, 1396182291,
   1695183700, 1986661051, 2177026350, 2456956037, 2730485921, 2820302411,
   3259730800, 3345764771, 3516065817, 3600352804, 4094571909, 275423344,
   430227734, 506948616, 659060556, 883997877, 958139571, 1322822218,
   1537002063, 1747873779, 1955562222, 2024104815, 2227730452, 2361852424,
   2428436474, 2756734187, 3204031479, 3329325298]

/-- Working state / chaining value: eight 32-bit words. -/
structure Hash8 where
  a : Nat
  b : Nat
  c : Nat
  d : Nat
  e : Nat
  f : Nat
  g : Nat
  h : Nat
  deriving Repr

/-- SHA-256 initial hash value (fractional parts of the square roots of the
first 8 primes), written in decimal. -/
def sha256H0 : Hash8 :=
  ⟨1779033703, 3144134277, 1013904242, 2773480762,
   1359893119, 2600822924, 528734635, 1541459225⟩

/-- Big-endian 8-byte encoding of a (bit-length) value. -/
def be64 (n : Nat) : List Nat :=
  [n / 2 ^ 56 % 256, n / 2 ^ 48 % 256, n / 2 ^ 40 % 256, n / 2 ^ 32 % 256,
   n / 2 ^ 24 % 256, n / 2 ^ 16 % 256, n / 2 ^ 8 % 256, n % 256]

/-- SHA-256 message padding: append `0x80`, zero bytes to 56 mod 64, then the
64-bit big-endian bit length. -/
def padMessage (msg : List Nat) : List Nat :=
  let padZeros := (56 + 64 - (msg.length + 1) % 64) % 64
  msg ++ 0x80 :: List.replicate padZeros 0 ++ be64 (8 * msg.length)

/-- Split a byte string into 64-byte blocks. -/
def splitBlocks (l : List Nat) : List (List Nat) :=
  if _h : l.length = 0 then []
  else l.take 64 :: splitBlocks (l.drop 64)
termination_by l.length
decreasing_by
  simp only [List.length_drop]
  omega

/-- Pack bytes into big-endian 32-bit words. -/
def toWords : List Nat → List Nat
  | b0 :: b1 :: b2 :: b3 :: rest => (((b0 * 256 + b1) * 256 + b2) * 256 + b3) :: toWords rest
  | _ => []

/-- Extend the 16 block words to the 64-entry message schedule. -/
def sched (w : List Nat) : List Nat :=
  (List.range 64).foldl
    (fun acc i =>
      if i < 16 then acc ++ [w.getD i 0]
      else acc ++ [w32 (ssig1 (acc.getD (i - 2) 0) + acc.getD (i - 7) 0 +
                        ssig0 (acc.getD (i - 15) 0) + acc.getD (i - 16) 0)])
    []

/-- One SHA-256 compression round. -/
def compressRound (st : Hash8) (ki wi : Nat) : Hash8 :=
  let t1 := w32 (st.h + bsig1 st.e + chf st.e st.f st.g + ki + wi)
  let t2 := w32 (bsig0 st.a + majf st.a st.b st.c)
  ⟨w32 (t1 + t2), st.a, st.b, st.c, w32 (st.d + t1), st.e, st.f, st.g⟩

/-- Compress one 64-byte block into the chaining value. -/
def compressBlock (hs : Hash8) (block : List Nat) : Hash8 :=
  let ws := sched (toWords block)
  let st := (sha256K.zip ws).foldl (fun st kw => compressRound st kw.1 kw.2) hs
  ⟨w32 (hs.a + st.a), w32 (hs.b + st.b), w32 (hs.c + st.c), w32 (hs.d + st.d),
   w32 (hs.e + st.e), w32 (hs.f + st.f), w32 (hs.g + st.g), w32 (hs.h + st.h)⟩

/-- The eight final 32-bit digest words. -/
def sha256Words (msg : List Nat) : Hash8 :=
  (splitBlocks (padMessage msg)).foldl compressBlock sha256H0

/-- Big-endian bytes of one 32-bit word. -/
def wordBytes (w : Nat) : List Nat :=
  [w / 16777216 % 256, w / 65536 % 256, w / 256 % 256, w % 256]

/-- Digest bytes of a chaining value. -/
def hashBytes (hs : Hash8) : List Nat :=
  wordBytes hs.a ++ wordBytes hs.b ++ wordBytes hs.c ++ wordBytes hs.d ++
  wordBytes hs.e ++ wordBytes hs.f ++ wordBytes hs.g ++ wordBytes hs.h

/-- SHA-256 of a byte string, as 32 digest bytes. -/
def sha256 (msg : List Nat) : List Nat := hashBytes (sha256Words msg)

/-- `Buffer.readUInt32BE(0)`: the first four bytes, big-endian. -/
def readUInt32BE : List Nat → Nat
  | b0 :: b1 :: b2 :: b3 :: _ => ((b0 * 256 + b1) * 256 + b2) * 256 + b3
  | _ => 0

/-! ## Canonical payload serialization (src/sogni-gen.mjs:70-98)

`computePromptHashSeed` builds a fixed-key-order object and hashes
`JSON.stringify(payload)`.  The serializer below reproduces
`JSON.stringify`'s output character by character: fixed key order, no
whitespace, standard string escaping.  Fractional numbers (LoRA strengths,
guidance) are IEEE doubles in the source, printed in shortest-roundtrip
decimal; they are modelled as `Rat` and printed by an injective stand-in over
the JSON number alphabet — no claim settled here depends on the exact digits
of a fractional number. -/

/-- Decimal digits of a natural number, most significant first. -/
def natDigits (n : Nat) : List Char :=
  if n < 10 then [Char.ofNat (48 + n)]
  else natDigits (n / 10) ++ [Char.ofNat (48 + n % 10)]
termination_by n
decreasing_by exact Nat.div_lt_self (by omega) (by omega)

/-- Decimal representation of an integer. -/
def intChars (i : Int) : List Char :=
  if i < 0 then '-' :: natDigits i.natAbs else natDigits i.natAbs

/-- Lowercase hex digit. -/
def hexDigitChar (n : Nat) : Char :=
  if n < 10 then Char.ofNat (48 + n) else Char.ofNat (87 + n)

/-- `JSON.stringify` escaping of one character: `"` and `\` get a backslash,
control characters use the two-character shorthands or `\u00xx`, everything
else is emitted verbatim. -/
def escChar (c : Char) : List Char :=
  if c = '"' then ['\\', '"']
  else if c = '\\' then ['\\', '\\']
  else if c.toNat < 32 then
    if c.toNat = 8 then ['\\', 'b']
    else if c.toNat = 9 then ['\\', 't']
    else if c.toNat = 10 then ['\\', 'n']
    else if c.toNat = 12 then ['\\', 'f']
    else if c.toNat = 13 then ['\\', 'r']
    else ['\\', 'u', '0', '0', hexDigitChar (c.toNat / 16), hexDigitChar (c.toNat % 16)]
  else [c]

/-- Escape a character list. -/
def escStr (s : List Char) : List Char := s.flatMap escChar

/-- A JSON string literal: opening quote, escaped body, closing quote. -/
def jstrL (s : List Char) : List Char := '"' :: (escStr s ++ ['"'])

/-- A JSON string literal from a `String`. -/
def jstr (s : String) : List Char := jstrL s.data

/-- Injective stand-in for `JSON.stringify`'s number output (see section
comment): integral rationals print as integers, others as
`numerator.denominator`.  Only characters from the JSON number alphabet. -/
def numChars (q : Rat) : List Char :=
  if q.den = 1 then intChars q.num
  else intChars q.num ++ '.' :: natDigits q.den

/-- Comma-separated JSON array body. -/
def jsonArrBody : List (List Char) → List Char
  | [] => []
  | [x] => x
  | x :: y :: xs => x ++ ',' :: jsonArrBody (y :: xs)

/-- A JSON array. -/
def jsonArr (elems : List (List Char)) : List Char :=
  '[' :: (jsonArrBody elems ++ [']'])

def jsonNull : List Char := ['n', 'u', 'l', 'l']

/-- `null` or a JSON string. -/
def jsonOptStr : Option String → List Char
  | none => jsonNull
  | some s => jstr s

/-- `null`, `true` or `false`. -/
def jsonOptBool : Option Bool → List Char
  | none => jsonNull
  | some true => ['t', 'r', 'u', 'e']
  | some false => ['f', 'a', 'l', 's', 'e']

/-- `null` or an integer. -/
def jsonOptInt : Option Int → List Char
  | none => jsonNull
  | some i => intChars i

/-- `null` or a number. -/
def jsonOptNum : Option Rat → List Char
  | none => jsonNull
  | some q => numChars q

/-- Characters of a fixed literal segment. -/
def lit (s : String) : List Char := s.data

/-- The option fields contributing to the `prompt-hash` seed payload
(src/sogni-gen.mjs:71-95).  `refAudioPath`/`refVideoPath` model the source's
`refAudio`/`refVideo`. -/
structure SeedOptions where
  prompt : Option String
  model : Option String
  video : Bool
  videoWorkflow : Option String
  width : Int
  height : Int
  azimuth : Option String
  elevation : Option String
  distance : Option String
  angleDescription : Option String
  outputFormat : Option String
  sampler : Option String
  scheduler : Option String
  loras : List String
  loraStrengths : List Rat
  refImage : Option String
  refImageEnd : Option String
  refAudioPath : Option String
  refVideoPath : Option String
  contextImages : List String
  autoResizeVideoAssets : Option Bool
  tokenType : Option String
  steps : Option Int
  guidance : Option Rat
  deriving Repr

/-- `JSON.stringify(payload)` for the seed payload object of lines 71-95:
the exact key order of the object literal, `|| ''` / `|| []` defaults applied
where the source applies them, `?? null` for `steps` and `guidance`. -/
def serializePayload (o : SeedOptions) : List Char :=
  lit "\x7b\"prompt\":" ++ jstr (o.prompt.getD "") ++
  lit ",\"model\":" ++ jstr (o.model.getD "") ++
  lit ",\"workflow\":" ++ jsonOptStr (if o.video then o.videoWorkflow else some "image") ++
  lit ",\"width\":" ++ intChars o.width ++
  lit ",\"height\":" ++ intChars o.height ++
  lit ",\"azimuth\":" ++ jstr (o.azimuth.getD "") ++
  lit ",\"elevation\":" ++ jstr (o.elevation.getD "") ++
  lit ",\"distance\":" ++ jstr (o.distance.getD "") ++
  lit ",\"angleDescription\":" ++ jstr (o.angleDescription.getD "") ++
  lit ",\"outputFormat\":" ++ jstr (o.outputFormat.getD "") ++
  lit ",\"sampler\":" ++ jstr (o.sampler.getD "") ++
  lit ",\"scheduler\":" ++ jstr (o.scheduler.getD "") ++
  lit ",\"loras\":" ++ jsonArr (o.loras.map jstr) ++
  lit ",\"loraStrengths\":" ++ jsonArr (o.loraStrengths.map numChars) ++
  lit ",\"refImage\":" ++ jstr (o.refImage.getD "") ++
  lit ",\"refImageEnd\":" ++ jstr (o.refImageEnd.getD "") ++
  lit ",\"refAudio\":" ++ jstr (o.refAudioPath.getD "") ++
  lit ",\"refVideo\":" ++ jstr (o.refVideoPath.getD "") ++
  lit ",\"contextImages\":" ++ jsonArr (o.contextImages.map jstr) ++
  lit ",\"autoResizeVideoAssets\":" ++ jsonOptBool o.autoResizeVideoAssets ++
  lit ",\"tokenType\":" ++ jstr (o.tokenType.getD "") ++
  lit ",\"steps\":" ++ jsonOptInt o.steps ++
  lit ",\"guidance\":" ++ jsonOptNum o.guidance ++
  lit "\x7d"

/-- UTF-8 encoding of one character (Node hashes the JS string as UTF-8). -/
def utf8Char (c : Char) : List Nat :=
  let n := c.toNat
  if n < 0x80 then [n]
  else if n < 0x800 then [0xC0 + n / 64, 0x80 + n % 64]
  else if n < 0x10000 then [0xE0 + n / 4096, 0x80 + n / 64 % 64, 0x80 + n % 64]
  else [0xF0 + n / 262144, 0x80 + n / 4096 % 64, 0x80 + n / 64 % 64, 0x80 + n % 64]

/-- UTF-8 encoding of a character list. -/
def utf8Encode (s : List Char) : List Nat := s.flatMap utf8Char

/-- `computePromptHashSeed` (src/sogni-gen.mjs:70-98): SHA-256 of the
serialized canonical payload, first four digest bytes read big-endian. -/
def computePromptHashSeed (o : SeedOptions) : Nat :=
  readUInt32BE (sha256 (utf8Encode (serializePayload o)))

/-! ## Claim theorems -/

/-- C1: a video request in non-strict mode with explicit width 500 and height
512 is claimed to be submitted as 496x512.  Evaluating the embedded submission
path at that input shows the `projectConfig` handed to `createVideoProject`
carries the unrounded width 500, which is not a multiple of 16: the CLI
contains no dimension normalization at all, contradicting its own test suite
and README (which expect 500x512 to be corrected or rejected as
`INVALID_VIDEO_SIZE`). -/
theorem c1_video_width_submitted_unrounded :
    (buildVideoProjectConfig
      { model := "wan_v2.2-14b-fp8_t2v_lightx2v", prompt := some "ocean waves"
        count := 1, width := 500, height := 512, fps := 16, frames := none
        duration := 5, tokenType := none, outputFormat := none
        autoResizeVideoAssets := none, imageRef := false, imageEndRef := false
        audioRef := false, videoRef := false, seed := some 42, steps := none
        guidance := none }).width = 500 ∧
    (buildVideoProjectConfig
      { model := "wan_v2.2-14b-fp8_t2v_lightx2v", prompt := some "ocean waves"
        count := 1, width := 500, height := 512, fps := 16, frames := none
        duration := 5, tokenType := none, outputFormat := none
        autoResizeVideoAssets := none, imageRef := false, imageEndRef := false
        audioRef := false, videoRef := false, seed := some 42, steps := none
        guidance := none }).height = 512 ∧
    ¬ 500 % 16 = 0 := by
  refine ⟨rfl, rfl, by decide⟩

/-- C2: validation failures are claimed to emit a JSON payload
`\x7bsuccess:false, errorCode, error, hint?, errorDetails?\x7d`.  Evaluating the
embedded failure-reporting paths shows (a) the context-image capacity failure
prints plain stderr text and exits before any JSON is written, even with
`--json`, and (b) the only JSON error payload the program can emit (the catch
block of `main`) has exactly the keys `success`, `error`, `prompt` — no
`errorCode`, contradicting the repository's own tests. -/
theorem c2_error_payload_has_no_errorCode :
    contextImagesCheck false 4 "qwen_image_edit_2511_fp8" 3 =
      some ["Error: Model qwen_image_edit_2511_fp8 supports max 3 context images, got 4"] ∧
    (catchErrorPayload "boom" (some "ocean waves")).map Prod.fst =
      ["success", "error", "prompt"] ∧
    ¬ "errorCode" ∈ (catchErrorPayload "boom" (some "ocean waves")).map Prod.fst := by
  refine ⟨by decide, rfl, by decide⟩

/-- C8: in 360 stitched-video mode with K angle frames the compiled plan has
exactly K interpolation segments; segment i starts at frame i and ends at
frame (i+1) mod K (the last segment wraps back to the first frame); with a
total frame budget F each segment requests max(17, round(F/K)) frames, and
otherwise each segment requests max(1, round(duration/K)) seconds. -/
theorem c8_segment_plan (vf : List String) (frames : Option Nat) (dur : Nat) :
    (buildSegments vf frames dur).length = vf.length ∧
    ∀ i, i < vf.length →
      ∃ seg, (buildSegments vf frames dur)[i]? = some seg ∧
        seg.startFrame = vf.getD i "" ∧
        seg.endFrame = vf.getD ((i + 1) % vf.length) "" ∧
        (∀ f, frames = some f → f ≠ 0 →
          seg.segFrames = some (max 17 (jsRound f vf.length)) ∧ seg.segDuration = none) ∧
        (frames = none →
          seg.segDuration = some (max 1 (jsRound dur vf.length)) ∧ seg.segFrames = none) := by
  constructor
  · simp [buildSegments]
  · intro i hi
    have hget : (buildSegments vf frames dur)[i]? = some
        { startFrame := vf.getD i ""
          endFrame := vf.getD ((i + 1) % vf.length) ""
          segFrames := if framesTruthy frames then
              some (segmentFramesOf (frames.getD 0) vf.length) else none
          segDuration := if framesTruthy frames then none
              else some (segmentDurationOf dur vf.length) } := by
      simp only [buildSegments, List.getElem?_map, List.getElem?_range hi]
      rfl
    refine ⟨_, hget, rfl, rfl, ?_, ?_⟩
    · intro f hf hf0
      subst hf
      simp [framesTruthy, hf0, segmentFramesOf]
    · intro hf
      subst hf
      simp [framesTruthy, segmentDurationOf]

/-- C8 witness: three angle frames, no frame budget, total duration 5s → three
segments, the last wrapping from frame "c" back to frame "a", each requesting
max(1, round(5/3)) = 2 seconds. -/
theorem c8_segment_plan_witness :
    (buildSegments ["a", "b", "c"] none 5).length = 3 ∧
    ∃ seg, (buildSegments ["a", "b", "c"] none 5)[2]? = some seg ∧
      seg.startFrame = "c" ∧ seg.endFrame = "a" ∧ seg.segDuration = some 2 := by
  obtain ⟨hlen, hall⟩ := c8_segment_plan ["a", "b", "c"] none 5
  refine ⟨hlen, ?_⟩
  obtain ⟨seg, hget, hstart, hend, _, hdur⟩ := hall 2 (by decide)
  exact ⟨seg, hget, by simpa using hstart, by simpa using hend,
    by simpa [jsRound] using (hdur rfl).1⟩

/-- The file produced by a successful stage (dummy value for failures). -/
def fileOfD : StageOutcome → String
  | .ok f => f
  | .fail _ => ""

theorem runStages_err_of_fail (res : Nat → StageOutcome) :
    ∀ n i, (∃ j, j < n ∧ ∃ m, res (i + j) = .fail m) →
      (runStages res i n).2.isSome := by
  intro n
  induction n with
  | zero => rintro i ⟨j, hj, _⟩; omega
  | succ n ih =>
    rintro i ⟨j, hj, m, hm⟩
    cases j with
    | zero =>
      simp only [Nat.add_zero] at hm
      simp [runStages, hm]
    | succ j =>
      simp only [runStages]
      cases hres : res i with
      | fail m' => simp
      | ok f =>
        have := ih (i + 1) ⟨j, by omega, m, by rw [show i + 1 + j = i + (j + 1) by omega]; exact hm⟩
        simp only []
        cases hrun : runStages res (i + 1) n with
        | mk files err =>
          simp only [hrun] at this ⊢
          simpa using this

theorem runStages_all_ok (res : Nat → StageOutcome) :
    ∀ n i, (runStages res i n).2 = none →
      ∀ j, j < n → ∃ f, res (i + j) = .ok f := by
  intro n
  induction n with
  | zero => intro i _ j hj; omega
  | succ n ih =>
    intro i herr j hj
    simp only [runStages] at herr
    cases hres : res i with
    | fail m => rw [hres] at herr; simp at herr
    | ok f =>
      rw [hres] at herr
      simp only [] at herr
      cases hrun : runStages res (i + 1) n with
      | mk files err =>
        rw [hrun] at herr
        simp only [] at herr
        cases j with
        | zero => exact ⟨f, by simpa using hres⟩
        | succ j =>
          have := ih (i + 1) (by rw [hrun]; exact herr) j (by omega)
          rwa [show i + 1 + j = i + (j + 1) by omega] at this

theorem runStages_ok_prefix (res : Nat → StageOutcome) :
    ∀ n i j, j < n → (∀ k, k ≤ j → ∃ f, res (i + k) = .ok f) →
      (runStages res i n).1[j]? = some (fileOfD (res (i + j))) := by
  intro n
  induction n with
  | zero => intro i j hj _; omega
  | succ n ih =>
    intro i j hj hok
    obtain ⟨f0, hf0⟩ := hok 0 (Nat.zero_le _)
    simp only [Nat.add_zero] at hf0
    simp only [runStages, hf0]
    cases hrun : runStages res (i + 1) n with
    | mk files err =>
      simp only []
      cases j with
      | zero => simp [hf0, fileOfD]
      | succ j =>
        have := ih (i + 1) j (by omega)
          (fun k hk => by
            rw [show i + 1 + k = i + (k + 1) by omega]
            exact hok (k + 1) (by omega))
        rw [hrun] at this
        simpa [show i + 1 + j = i + (j + 1) by omega] using this

/-- C9: if any angle or interpolation-segment job of the compound 360-video
workflow fails, the concatenation step is never invoked, the compound result
is a failure, and every file downloaded before the first failing stage is
still present in the result (nothing is deleted). -/
theorem c9_compound_abort (angleCount : Nat) (angleRes segRes : Nat → StageOutcome)
    (hfail : (∃ j, j < angleCount ∧ ∃ m, angleRes j = .fail m) ∨
             (∃ j, j < (runStages angleRes 0 angleCount).1.length ∧ ∃ m, segRes j = .fail m)) :
    (runCompound angleCount angleRes segRes).concatInvoked = false ∧
    (∃ msg, (runCompound angleCount angleRes segRes).outcome = .error msg) ∧
    (∀ j, j < angleCount → (∀ k, k ≤ j → ∃ f, angleRes k = .ok f) →
      (runCompound angleCount angleRes segRes).angleFiles[j]? = some (fileOfD (angleRes j))) ∧
    (∀ j, j < (runStages angleRes 0 angleCount).1.length →
      (∀ k, k ≤ j → ∃ f, segRes k = .ok f) →
      (runCompound angleCount angleRes segRes).clipFiles[j]? = some (fileOfD (segRes j)) ∨
      (runCompound angleCount angleRes segRes).clipFiles = []) := by
  cases hA : runStages angleRes 0 angleCount with
  | mk aFiles aErr =>
    cases aErr with
    | some msg =>
      refine ⟨?_, ⟨msg, ?_⟩, ?_, ?_⟩
      · simp [runCompound, hA]
      · simp [runCompound, hA]
      · intro j hj hok
        have := runStages_ok_prefix angleRes angleCount 0 j hj
          (fun k hk => by simpa using hok k hk)
        simp only [Nat.zero_add] at this
        rw [hA] at this
        simpa [runCompound, hA] using this
      · intro j hj hok
        right
        simp [runCompound, hA]
    | none =>
      cases hS : runStages segRes 0 aFiles.length with
      | mk cFiles cErr =>
        have hSome : cErr.isSome := by
          rcases hfail with ⟨j, hj, m, hm⟩ | ⟨j, hj, m, hm⟩
          · exfalso
            obtain ⟨f, hf⟩ := runStages_all_ok angleRes angleCount 0 (by rw [hA]) j hj
            simp only [Nat.zero_add] at hf
            rw [hf] at hm
            exact StageOutcome.noConfusion hm
          · rw [hA] at hj
            have := runStages_err_of_fail segRes aFiles.length 0 ⟨j, hj, m, by simpa using hm⟩
            rw [hS] at this
            exact this
        obtain ⟨msg, hmsg⟩ := Option.isSome_iff_exists.mp hSome
        subst hmsg
        refine ⟨?_, ⟨msg, ?_⟩, ?_, ?_⟩
        · simp [runCompound, hA, hS]
        · simp [runCompound, hA, hS]
        · intro j hj hok
          have := runStages_ok_prefix angleRes angleCount 0 j hj
            (fun k hk => by simpa using hok k hk)
          simp only [Nat.zero_add] at this
          rw [hA] at this
          simpa [runCompound, hA, hS] using this
        · intro j hj hok
          left
          have hj' : j < aFiles.length := hj
          have := runStages_ok_prefix segRes aFiles.length 0 j hj'
            (fun k hk => by simpa using hok k hk)
          simp only [Nat.zero_add] at this
          rw [hS] at this
          simpa [runCompound, hA, hS] using this

/-- C9 witness: three angle jobs succeed, segment 2 of 3 fails → no
concatenation, compound failure, and the first clip plus all three angle
frames are still on disk. -/
theorem c9_compound_abort_witness :
    (runCompound 3
        (fun j => .ok ("angle" ++ toString j))
        (fun j => if j = 1 then .fail "segment failed" else .ok ("clip" ++ toString j))).concatInvoked = false ∧
    (∃ msg, (runCompound 3
        (fun j => .ok ("angle" ++ toString j))
        (fun j => if j = 1 then .fail "segment failed" else .ok ("clip" ++ toString j))).outcome = .error msg) ∧
    (runCompound 3
        (fun j => .ok ("angle" ++ toString j))
        (fun j => if j = 1 then .fail "segment failed" else .ok ("clip" ++ toString j))).angleFiles[2]? = some "angle2" ∧
    (runCompound 3
        (fun j => .ok ("angle" ++ toString j))
        (fun j => if j = 1 then .fail "segment failed" else .ok ("clip" ++ toString j))).clipFiles[0]? = some "clip0" := by
  obtain ⟨hconcat, hout, hangles, hclips⟩ := c9_compound_abort 3
    (fun j => .ok ("angle" ++ toString j))
    (fun j => if j = 1 then .fail "segment failed" else .ok ("clip" ++ toString j))
    (Or.inr ⟨1, by decide, "segment failed", by decide⟩)
  refine ⟨hconcat, hout, ?_, ?_⟩
  · have h := hangles 2 (by decide) (fun k _ => ⟨"angle" ++ toString k, rfl⟩)
    rw [h]
    decide
  · have h := hclips 0 (by decide) (fun k hk =>
      ⟨"clip" ++ toString k, by
        have hk0 : k = 0 := Nat.le_zero.mp hk
        subst hk0
        rfl⟩)
    rcases h with h | h
    · rw [h]
      decide
    · exact absurd h (by decide)

/-- The angle strength the normalization actually ends up using: the
`--angle-strength` value if given; else the single promoted `--lora-strength`
value when `--loras` is empty; else 0.9. -/
def effectiveAngleStrength (l0 : List String) (s0 : List Rat) (a0 : Option Rat) : Rat :=
  if l0.length = 0 ∧ s0.length > 0 then a0.getD (s0.headD 0) else a0.getD (9 / 10)

/-- C10 counterexample: with `--loras multiple_angles,multiple_angles
--lora-strengths 0.5,0.6` and no `--angle-strength`, normalization succeeds
but the LoRA list contains `multiple_angles` twice and the strength at its
(first) position is the user value 1/2, not the angle strength 9/10 — the
claim's "exactly once" and "equals the angle strength" both fail. -/
theorem c10_counterexample :
    normalizeMultiAngleLoras ["multiple_angles", "multiple_angles"]
        [1 / 2, 3 / 5] none =
      .ok ⟨["multiple_angles", "multiple_angles"], [1 / 2, 3 / 5], 9 / 10⟩ ∧
    (["multiple_angles", "multiple_angles"].count "multiple_angles" = 2 ∧ ¬ (2 = 1)) ∧
    ((["multiple_angles", "multiple_angles"] : List String).indexOf "multiple_angles" = 0 ∧
      ([1 / 2, 3 / 5] : List Rat)[0]? = some (1 / 2) ∧ ¬ ((1 / 2 : Rat) = 9 / 10)) := by
  refine ⟨?_, ⟨by decide, by decide⟩, by decide, by norm_num, by norm_num⟩
  rfl

/-- C10 (amended): after multi-angle normalization succeeds, `multiple_angles`
is present in the LoRA list — exactly once provided the user-supplied list did
not itself contain it more than once; the strengths list has the same length
as the LoRA list; the strength at the (first) `multiple_angles` position
equals the effective angle strength whenever the user did not explicitly
supply a strengths list covering a pre-existing `multiple_angles` entry; and
with no strengths supplied every other LoRA defaults to strength 1. -/
theorem c10_amended (l0 : List String) (s0 : List Rat) (a0 : Option Rat) (res : MAResult)
    (h : normalizeMultiAngleLoras l0 s0 a0 = .ok res) :
    res.angleStrength = effectiveAngleStrength l0 s0 a0 ∧
    "multiple_angles" ∈ res.loras ∧
    (l0.count "multiple_angles" ≤ 1 → res.loras.count "multiple_angles" = 1) ∧
    res.loraStrengths.length = res.loras.length ∧
    (("multiple_angles" ∉ l0 ∨ s0 = [] ∨ l0 = []) →
      res.loraStrengths[res.loras.indexOf "multiple_angles"]? = some res.angleStrength) ∧
    (s0 = [] → ∀ (j : Nat) (id : String), res.loras[j]? = some id →
      id ≠ "multiple_angles" → res.loraStrengths[j]? = some 1) := by
  by_cases hs0 : s0 = []
  · subst hs0
    by_cases hMem : "multiple_angles" ∈ l0
    · -- strengths defaulted over the user list, which already holds the id
      have hl0 : l0 ≠ [] := List.ne_nil_of_mem hMem
      have hpos : 0 < l0.length := List.length_pos.mpr hl0
      simp [normalizeMultiAngleLoras, hMem, hl0, hpos] at h
      obtain rfl := h.symm
      have hidx : l0.indexOf "multiple_angles" < l0.length :=
        List.indexOf_lt_length.mpr hMem
      refine ⟨by simp [effectiveAngleStrength, hl0], by simpa using hMem, ?_, by simp, ?_, ?_⟩
      · intro hc
        have := List.count_pos_iff.mpr hMem
        simp only []
        omega
      · intro _
        simp only [List.getElem?_map, List.getElem?_eq_getElem hidx,
          List.getElem_indexOf hidx, Option.map_some]
        simp
      · intro _ j id hj hne
        simp only [] at hj ⊢
        simp [List.getElem?_map, hj, hne]
    · -- the id is appended and strengths defaulted over the extended list
      simp [normalizeMultiAngleLoras, hMem] at h
      obtain rfl := h.symm
      have hidx : (l0 ++ ["multiple_angles"]).indexOf "multiple_angles" = l0.length := by
        simp [List.indexOf_append_of_not_mem hMem]
      refine ⟨by simp [effectiveAngleStrength], by simp, ?_, by simp, ?_, ?_⟩
      · intro _
        simp [List.count_append, List.count_eq_zero.mpr hMem]
      · intro _
        simp only [hidx]
        have : (l0.map (fun id => if id = "multiple_angles" then
            (a0.getD (9 / 10) : Rat) else 1)).length = l0.length := by simp
        rw [show (l0.map (fun id => if id = "multiple_angles" then
              (a0.getD (9 / 10) : Rat) else 1) ++ [a0.getD (9 / 10)])[l0.length]? =
            some (a0.getD (9 / 10)) from by
          rw [← this]
          exact List.getElem?_concat_length _ _]
      · intro _ j id hj hne
        simp only [] at hj ⊢
        rcases Nat.lt_trichotomy j l0.length with hlt | heq | hgt
        · rw [List.getElem?_append_left hlt] at hj
          rw [List.getElem?_append_left (by simpa using hlt), List.getElem?_map, hj]
          simp [hne]
        · subst heq
          rw [List.getElem?_concat_length] at hj
          exact absurd (Option.some.inj hj).symm hne
        · rw [List.getElem?_eq_none (by simp; omega)] at hj
          exact Option.noConfusion hj
  · by_cases hl0 : l0 = []
    · subst hl0
      by_cases hA1 : 1 < s0.length
      · exfalso
        simp [normalizeMultiAngleLoras, hA1, List.length_pos.mpr hs0] at h
      · have hs0len : 0 < s0.length := List.length_pos.mpr hs0
        obtain ⟨x, rfl⟩ := List.length_eq_one.mp (show s0.length = 1 by omega)
        simp [normalizeMultiAngleLoras] at h
        obtain rfl := h.symm
        refine ⟨by simp [effectiveAngleStrength], by simp, by intro _; simp, by simp, ?_, ?_⟩
        · intro _
          simp
        · intro h'
          exact absurd h' (by simp)
    · have hpos : 0 < l0.length := List.length_pos.mpr hl0
      have hs0len : 0 < s0.length := List.length_pos.mpr hs0
      by_cases hMem : "multiple_angles" ∈ l0
      · by_cases hLen : s0.length = l0.length
        · -- user-supplied strengths kept verbatim
          have hidx : l0.indexOf "multiple_angles" < s0.length := by
            rw [hLen]; exact List.indexOf_lt_length.mpr hMem
          obtain ⟨y, hy⟩ : ∃ y, s0[l0.indexOf "multiple_angles"]? = some y :=
            ⟨_, List.getElem?_eq_getElem hidx⟩
          simp [normalizeMultiAngleLoras, hMem, hl0, hs0, hLen, hy, hs0len, hpos] at h
          obtain rfl := h.symm
          refine ⟨by simp [effectiveAngleStrength, hl0], by simpa using hMem, ?_,
            by simpa using hLen, ?_, ?_⟩
          · intro hc
            have := List.count_pos_iff.mpr hMem
            simp only []
            omega
          · rintro (hc | hc | hc)
            · exact absurd hMem hc
            · exact absurd hc hs0
            · exact absurd hc hl0
          · intro h'
            exact absurd h' hs0
        · exfalso
          simp [normalizeMultiAngleLoras, hMem, hl0, hs0, hLen, hs0len, hpos] at h
      · by_cases hLen : s0.length = l0.length
        · -- id appended with the angle strength appended alongside
          have hget : (s0 ++ [a0.getD (9 / 10)])[l0.length]? =
              some (a0.getD (9 / 10)) := by
            rw [← hLen]
            exact List.getElem?_concat_length s0 _
          simp [normalizeMultiAngleLoras, hMem, hl0, hs0, hLen, hget, hs0len, hpos] at h
          obtain rfl := h.symm
          have hidx : (l0 ++ ["multiple_angles"]).indexOf "multiple_angles" = l0.length := by
            simp [List.indexOf_append_of_not_mem hMem]
          refine ⟨by simp [effectiveAngleStrength, hl0], by simp, ?_,
            by simp [hLen], ?_, ?_⟩
          · intro _
            simp [List.count_append, List.count_eq_zero.mpr hMem]
          · intro _
            simp only [hidx]
            exact hget
          · intro h'
            exact absurd h' hs0
        · exfalso
          simp [normalizeMultiAngleLoras, hMem, hl0, hs0, hLen, hs0len, hpos] at h

/-- C10 witness: `--lora style_a` with no strengths and no `--angle-strength`
normalizes to LoRAs `[style_a, multiple_angles]` with strengths `[1, 0.9]`. -/
theorem c10_amended_witness :
    normalizeMultiAngleLoras ["style_a"] [] none =
      .ok ⟨["style_a", "multiple_angles"], [1, 9 / 10], 9 / 10⟩ ∧
    (["style_a", "multiple_angles"] : List String).count "multiple_angles" = 1 ∧
    ([(1 : Rat), 9 / 10]).length = (["style_a", "multiple_angles"] : List String).length ∧
    ([(1 : Rat), 9 / 10])[(["style_a", "multiple_angles"] : List String).indexOf "multiple_angles"]? =
      some ((9 : Rat) / 10) ∧
    ([(1 : Rat), 9 / 10])[0]? = some 1 := by
  have hnorm : normalizeMultiAngleLoras ["style_a"] [] none =
      .ok ⟨["style_a", "multiple_angles"], [1, 9 / 10], 9 / 10⟩ := rfl
  obtain ⟨_, _, h3, h4, h5, h6⟩ := c10_amended _ _ _ _ hnorm
  exact ⟨hnorm, h3 (by decide), h4, h5 (Or.inl (by decide)),
    h6 rfl 0 "style_a" rfl (by decide)⟩

/-! ### Orchestrator invariants -/

theorem editStep_projectId_stable (expected : Nat) (e : OrchEvent) (s : EditOrchState)
    (p : Nat) (h : s.projectId = some p) :
    (editStep expected s e).projectId = some p := by
  cases e with
  | completed pid url sd idx =>
    simp only [editStep]
    split
    · exact h
    · split
      · exact h
      · simp only [h, Option.isSome_some, if_true]
        split <;> simp [editCleanup, h]
  | failed pid msg =>
    simp only [editStep]
    split
    · exact h
    · split
      · exact h
      · simp [editCleanup, h]
  | progress pid pct => exact h
  | timerFired =>
    simp only [editStep]
    split
    · exact h
    · simp [editCleanup, h]

theorem editStep_results_pid (expected : Nat) (e : OrchEvent) (s : EditOrchState)
    (p : Nat) (h : s.projectId = some p) (hres : ∀ o ∈ s.results, o.projectId = p) :
    ∀ o ∈ (editStep expected s e).results, o.projectId = p := by
  cases e with
  | completed pid url sd idx =>
    simp only [editStep]
    split
    · exact hres
    · split
      · exact hres
      · next hguard =>
        have hpid : pid = p := by
          rw [h] at hguard
          simp at hguard
          omega
        subst hpid
        simp only [h, Option.isSome_some, if_true]
        split
        · intro o ho
          simp only [editCleanup] at ho
          rcases List.mem_append.mp ho with ho | ho
          · exact hres o ho
          · simp at ho
            subst ho
            rfl
        · intro o ho
          simp only [] at ho
          rcases List.mem_append.mp ho with ho | ho
          · exact hres o ho
          · simp at ho
            subst ho
            rfl
  | failed pid msg =>
    simp only [editStep]
    split
    · exact hres
    · split
      · exact hres
      · simpa [editCleanup] using hres
  | progress pid pct => exact hres
  | timerFired =>
    simp only [editStep]
    split
    · exact hres
    · simpa [editCleanup] using hres

theorem editStep_mismatch_noop (expected : Nat) (s : EditOrchState) (pid : Nat)
    (url : Option String) (sd : Option Nat) (idx : Nat) (p : Nat)
    (hp : s.projectId = some p) (hne : pid ≠ p) :
    editStep expected s (.completed pid url sd idx) = s := by
  simp only [editStep]
  split
  · rfl
  · rw [if_pos ⟨by simp [hp], by simp [hp]; omega⟩]

/-- C3: a per-unit completion event whose correlation id differs from the
orchestration's known project id is a complete no-op (not counted, not
included); when the id is not yet known it is latched from the first accepted
event; and once the id is known every accumulated outcome carries it, over any
event stream. -/
theorem c3_correlation_isolation (expected : Nat) (s : EditOrchState) (pid : Nat)
    (url : Option String) (sd : Option Nat) (idx : Nat) :
    (∀ p, s.projectId = some p → pid ≠ p →
      editStep expected s (.completed pid url sd idx) = s) ∧
    (s.projectId = none → s.listeners = true →
      (editStep expected s (.completed pid url sd idx)).projectId = some pid) ∧
    (∀ evs p, s.projectId = some p → (∀ o ∈ s.results, o.projectId = p) →
      ∀ o ∈ (editRun expected s evs).results, o.projectId = p) := by
  refine ⟨?_, ?_, ?_⟩
  · intro p hp hne
    exact editStep_mismatch_noop expected s pid url sd idx p hp hne
  · intro hnone hlist
    simp only [editStep, hlist]
    rw [if_neg (by simp), if_neg (by simp [hnone])]
    simp only [hnone, Option.isSome_none, Bool.false_eq_true, if_false]
    split <;> simp [editCleanup]
  · intro evs
    induction evs generalizing s with
    | nil => intro p hp hres; simpa [editRun] using hres
    | cons e rest ih =>
      intro p hp hres
      have hstep := editStep_results_pid expected e s p hp hres
      have hpid := editStep_projectId_stable expected e s p hp
      simpa [editRun] using ih (editStep expected s e) p hpid hstep

/-- C3 witness: with project id 5 latched, a completion for project 9 changes
nothing; with no id known, a completion for project 9 latches 9. -/
theorem c3_correlation_isolation_witness :
    editStep 2 (editInit (some 5)) (.completed 9 (some "u") (some 1) 0) =
      editInit (some 5) ∧
    (editStep 2 (editInit none) (.completed 9 (some "u") (some 1) 0)).projectId = some 9 := by
  obtain ⟨h1, h2, _⟩ :=
    c3_correlation_isolation 2 (editInit (some 5)) 9 (some "u") (some 1) 0
  obtain ⟨_, h2', _⟩ :=
    c3_correlation_isolation 2 (editInit none) 9 (some "u") (some 1) 0
  exact ⟨h1 5 rfl (by decide), h2' rfl rfl⟩

theorem editStep_settled_cleanup (expected : Nat) (e : OrchEvent) (s : EditOrchState)
    (h : s.settledAs.isSome = true → s.listeners = false ∧ s.timer = false) :
    (editStep expected s e).settledAs.isSome = true →
      (editStep expected s e).listeners = false ∧ (editStep expected s e).timer = false := by
  cases e with
  | completed pid url sd idx =>
    simp only [editStep]
    split
    · exact h
    · split
      · exact h
      · next hlist _ =>
        split
        · intro _
          exact ⟨rfl, rfl⟩
        · intro hsome
          simp only [] at hsome
          exact absurd (h hsome).1 (by simpa using hlist)
  | failed pid msg =>
    simp only [editStep]
    split
    · exact h
    · split
      · exact h
      · intro _
        exact ⟨rfl, rfl⟩
  | progress pid pct => exact h
  | timerFired =>
    simp only [editStep]
    split
    · exact h
    · intro _
      exact ⟨rfl, rfl⟩

/-- C4 (amended): the compound-workflow orchestrator
`runImageEditProjectWithEvents` removes its listeners and clears its timer on
every settlement path — success, failure, timeout (its state can only be
settled with listeners and timer cleared), and submission rejection (which
runs `cleanup()` unconditionally); the single-job orchestration inside `main`
never deregisters its listeners (see the counterexample), but nothing runs
after it in a compound workflow. -/
theorem c4_amended_listener_cleanup (expected : Nat) (pid0 : Option Nat)
    (evs : List OrchEvent)
    (h : (editRun expected (editInit pid0) evs).settledAs.isSome = true) :
    (editRun expected (editInit pid0) evs).listeners = false ∧
    (editRun expected (editInit pid0) evs).timer = false ∧
    (∀ s : EditOrchState, (editCleanup s).listeners = false ∧ (editCleanup s).timer = false) := by
  have main : ∀ (l : List OrchEvent) (s : EditOrchState),
      (s.settledAs.isSome = true → s.listeners = false ∧ s.timer = false) →
      (editRun expected s l).settledAs.isSome = true →
        (editRun expected s l).listeners = false ∧ (editRun expected s l).timer = false := by
    intro l
    induction l with
    | nil => intro s hs; simpa [editRun] using hs
    | cons e rest ih =>
      intro s hs
      have := editStep_settled_cleanup expected e s hs
      simpa [editRun] using ih (editStep expected s e) this
  refine ⟨?_, ?_, fun s => ⟨rfl, rfl⟩⟩
  · exact (main evs (editInit pid0) (by intro hc; simp [editInit] at hc) h).1
  · exact (main evs (editInit pid0) (by intro hc; simp [editInit] at hc) h).2

/-- C4 witness: one expected unit, one completion event → the edit-flow
orchestration settles with listeners removed and timer cleared. -/
theorem c4_amended_listener_cleanup_witness :
    (editRun 1 (editInit (some 5)) [.completed 5 (some "u") (some 1) 0]).settledAs.isSome = true ∧
    (editRun 1 (editInit (some 5)) [.completed 5 (some "u") (some 1) 0]).listeners = false ∧
    (editRun 1 (editInit (some 5)) [.completed 5 (some "u") (some 1) 0]).timer = false := by
  have h := c4_amended_listener_cleanup 1 (some 5) [.completed 5 (some "u") (some 1) 0] rfl
  exact ⟨rfl, h.1, h.2.1⟩

/-- C4 counterexample: the single-job orchestration in `main` settles
successfully (one expected unit, one completion event) with its listeners
still registered — no settlement path of that orchestration deregisters them,
refuting the claim for the `main` completion promise that the claim's sources
cite. -/
theorem c4_counterexample_main_listeners_leak :
    (mainRun 1 mainInit [.completed 7 (some "u") (some 3) 0]).settledAs.isSome = true ∧
    (mainRun 1 mainInit [.completed 7 (some "u") (some 3) 0]).listeners = true := by
  exact ⟨rfl, rfl⟩

/-- Does the event report a unit completion for project `p`? -/
def matchingCompletion (p : Nat) : OrchEvent → Bool
  | .completed pid _ _ _ => pid = p
  | _ => false

/-- Does the event report a failure for project `p`? -/
def matchingFailure (p : Nat) : OrchEvent → Bool
  | .failed pid _ => pid = p
  | _ => false

/-- Is the event the timeout firing? -/
def isTimerEvent : OrchEvent → Bool
  | .timerFired => true
  | _ => false

/-- The unit outcome a completion event is turned into by the handler. -/
def outcomeOfEvent : OrchEvent → UnitOutcome
  | .completed pid url sd idx => ⟨url, sd, idx, pid⟩
  | _ => ⟨none, none, 0, 0⟩

theorem editRun_frozen (expected : Nat) :
    ∀ (evs : List OrchEvent) (s : EditOrchState),
      s.listeners = false → s.timer = false → editRun expected s evs = s := by
  intro evs
  induction evs with
  | nil => intro s _ _; rfl
  | cons e rest ih =>
    intro s hl ht
    have hstep : editStep expected s e = s := by
      cases e with
      | completed pid url sd idx => simp [editStep, hl]
      | failed pid msg => simp [editStep, hl]
      | progress pid pct => rfl
      | timerFired => simp [editStep, ht]
    simpa [editRun, hstep] using ih s hl ht

theorem editRun_cons (expected : Nat) (e : OrchEvent) (rest : List OrchEvent)
    (s : EditOrchState) :
    editRun expected s (e :: rest) = editRun expected (editStep expected s e) rest := rfl

theorem c5_aux (expected p : Nat) :
    ∀ (evs : List OrchEvent) (s : EditOrchState),
      s.projectId = some p → s.listeners = true → s.timer = true →
      s.settledAs = none → s.completed = s.results.length →
      s.results.length + (evs.filter (matchingCompletion p)).length = expected →
      s.results.length < expected →
      (∀ e ∈ evs, matchingFailure p e = false) →
      (∀ e ∈ evs, isTimerEvent e = false) →
      (editRun expected s evs).settledAs =
        some (.success (s.results ++ (evs.filter (matchingCompletion p)).map outcomeOfEvent)) := by
  intro evs
  induction evs with
  | nil =>
    intro s _ _ _ _ _ hcount hlt _ _
    simp only [List.filter_nil, List.length_nil] at hcount
    omega
  | cons e rest ih =>
    intro s hp hl ht hsettled hcomp hcount hlt hnofail hnotimer
    by_cases hm : matchingCompletion p e = true
    · cases e with
      | completed pid url sd idx =>
        have hpid : p = pid := (by simpa [matchingCompletion] using hm :
          pid = p).symm
        subst hpid
        have hstep : editStep expected s (.completed p url sd idx) =
            (if s.completed + 1 ≥ expected then
              { editCleanup { s with
                  results := s.results ++ [⟨url, sd, idx, p⟩]
                  completed := s.completed + 1 } with
                settledAs := some (.success (s.results ++ [⟨url, sd, idx, p⟩])) }
            else { s with
                  results := s.results ++ [⟨url, sd, idx, p⟩]
                  completed := s.completed + 1 }) := by
          simp only [editStep, hl]
          rw [if_neg (by simp), if_neg (by simp [hp])]
          simp [hp]
        have hfilter : (List.filter (matchingCompletion p)
            (.completed p url sd idx :: rest)) =
            .completed p url sd idx :: rest.filter (matchingCompletion p) := by
          simp [List.filter_cons, hm]
        by_cases hfin : s.completed + 1 ≥ expected
        · have hrest0 : rest.filter (matchingCompletion p) = [] := by
            rw [hfilter] at hcount
            simp only [List.length_cons] at hcount
            have h0 : (rest.filter (matchingCompletion p)).length = 0 := by omega
            exact List.length_eq_zero.mp h0
          rw [if_pos hfin] at hstep
          rw [editRun_cons, hstep, editRun_frozen expected rest _ rfl rfl, hfilter, hrest0]
          simp [outcomeOfEvent]
        · rw [if_neg hfin] at hstep
          rw [editRun_cons, hstep]
          have hrec := ih { s with
              results := s.results ++ [⟨url, sd, idx, p⟩]
              completed := s.completed + 1 }
            (by simpa using hp) (by simpa using hl) (by simpa using ht)
            (by simpa using hsettled) (by simp [hcomp])
            (by
              rw [hfilter] at hcount
              simp only [List.length_cons] at hcount
              simp only [List.length_append, List.length_singleton]
              omega)
            (by
              simp only [List.length_append, List.length_singleton]
              omega)
            (fun e he => hnofail e (List.mem_cons_of_mem _ he))
            (fun e he => hnotimer e (List.mem_cons_of_mem _ he))
          rw [hrec, hfilter]
          simp [outcomeOfEvent]
      | failed pid msg => simp [matchingCompletion] at hm
      | progress pid pct => simp [matchingCompletion] at hm
      | timerFired => simp [matchingCompletion] at hm
    · have hstep : editStep expected s e = s := by
        cases e with
        | completed pid url sd idx =>
          have hpid : ¬ pid = p := by simpa [matchingCompletion] using hm
          exact editStep_mismatch_noop expected s pid url sd idx p hp hpid
        | failed pid msg =>
          have hpid : ¬ pid = p := by
            have := hnofail _ (List.mem_cons_self _ _)
            simpa [matchingFailure] using this
          simp only [editStep, hl]
          rw [if_neg (by simp), if_pos ⟨by simp [hp], by simp [hp]; omega⟩]
        | progress pid pct => rfl
        | timerFired =>
          have := hnotimer _ (List.mem_cons_self _ _)
          simp [isTimerEvent] at this
      have hfilter : (e :: rest).filter (matchingCompletion p) =
          rest.filter (matchingCompletion p) := by
        simp [List.filter_cons, hm]
      rw [editRun_cons, hstep, hfilter]
      exact ih s hp hl ht hsettled hcomp (by rw [hfilter] at hcount; exact hcount) hlt
        (fun e' he => hnofail e' (List.mem_cons_of_mem _ he))
        (fun e' he => hnotimer e' (List.mem_cons_of_mem _ he))

/-- C5: with expectedUnitCount = N > 0 and a known correlation id, if the
event stream delivers exactly N completion events for that id, no failure for
that id and no timeout firing, the orchestration settles successfully with
exactly the N matching outcomes, in receipt order, regardless of how the
stream interleaves them with events of other jobs. -/
theorem c5_liveness (expected p : Nat) (evs : List OrchEvent)
    (hN : 0 < expected)
    (hcount : (evs.filter (matchingCompletion p)).length = expected)
    (hnofail : ∀ e ∈ evs, matchingFailure p e = false)
    (hnotimer : ∀ e ∈ evs, isTimerEvent e = false) :
    (editRun expected (editInit (some p)) evs).settledAs =
      some (.success ((evs.filter (matchingCompletion p)).map outcomeOfEvent)) ∧
    ((evs.filter (matchingCompletion p)).map outcomeOfEvent).length = expected := by
  constructor
  · have := c5_aux expected p evs (editInit (some p)) rfl rfl rfl rfl rfl
      (by simpa [editInit] using hcount) (by simpa [editInit] using hN)
      hnofail hnotimer
    simpa [editInit] using this
  · simpa using hcount

/-- C5 witness: N = 2, correlation id 5, events interleaved with another
job's completion and failure → settles with exactly the two matching outcomes
in receipt order. -/
theorem c5_liveness_witness :
    (editRun 2 (editInit (some 5))
        [.completed 9 (some "x") (some 7) 0,
         .completed 5 (some "a") (some 1) 1,
         .failed 9 "other job failed",
         .completed 5 (some "b") (some 2) 0]).settledAs =
      some (.success [⟨some "a", some 1, 1, 5⟩, ⟨some "b", some 2, 0, 5⟩]) := by
  have h := c5_liveness 2 5
    [.completed 9 (some "x") (some 7) 0,
     .completed 5 (some "a") (some 1) 1,
     .failed 9 "other job failed",
     .completed 5 (some "b") (some 2) 0]
    (by decide) (by decide) (by decide) (by decide)
  simpa [matchingCompletion, outcomeOfEvent] using h.1

/-! ### Seed derivation: range, determinism, digest width (C6) -/

theorem readUInt32BE_hashBytes_lt (hs : Hash8) :
    readUInt32BE (hashBytes hs) < 4294967296 := by
  simp only [hashBytes, wordBytes, List.cons_append, List.nil_append, readUInt32BE]
  omega

/-- C6: the prompt-hash seed derivation is a pure function of the canonical
payload: it hashes the order-stable serialization with a 256-bit digest
(32 digest bytes), returns the first 32 bits as an unsigned integer below
2^32, and two calls on identical inputs give identical values. -/
theorem c6_seed_pure_uint32 (o : SeedOptions) :
    computePromptHashSeed o < 4294967296 ∧
    computePromptHashSeed o = computePromptHashSeed o ∧
    (sha256 (utf8Encode (serializePayload o))).length = 32 := by
  refine ⟨readUInt32BE_hashBytes_lt _, rfl, ?_⟩
  simp [sha256, hashBytes, wordBytes]

/-! ### Decimal digits: evaluation and injectivity -/

/-- Value of a digit string (left fold, base 10). -/
def digitsVal (l : List Char) : Nat :=
  l.foldl (fun acc c => acc * 10 + (c.toNat - 48)) 0

theorem toNat_digitChar (k : Nat) (h : k < 10) :
    (Char.ofNat (48 + k)).toNat = 48 + k := by
  interval_cases k <;> decide

theorem digitsVal_append_digit (xs : List Char) (c : Char) :
    digitsVal (xs ++ [c]) = digitsVal xs * 10 + (c.toNat - 48) := by
  simp [digitsVal, List.foldl_append]

theorem digitsVal_natDigits (n : Nat) : digitsVal (natDigits n) = n := by
  induction n using Nat.strong_induction_on with
  | _ n ih =>
    rw [natDigits]
    split
    · next h =>
      simp [digitsVal, toNat_digitChar n h]
    · next h =>
      rw [digitsVal_append_digit,
        ih (n / 10) (Nat.div_lt_self (by omega) (by omega)),
        toNat_digitChar (n % 10) (Nat.mod_lt _ (by omega))]
      omega

theorem natDigits_injective : Function.Injective natDigits := by
  intro m n h
  have := digitsVal_natDigits m
  rw [h, digitsVal_natDigits] at this
  omega

/-! ### C7 counterexample: truncating a 256-bit digest to 32 bits admits
collisions (pigeonhole over the infinite prompt space) -/

/-- A family of seed payloads that differ only in the prompt. -/
def promptVariant (n : Nat) : SeedOptions :=
  { prompt := some (String.mk (natDigits n)), model := none, video := false
    videoWorkflow := none, width := 512, height := 512, azimuth := none
    elevation := none, distance := none, angleDescription := none
    outputFormat := none, sampler := none, scheduler := none, loras := []
    loraStrengths := [], refImage := none, refImageEnd := none
    refAudioPath := none, refVideoPath := none, contextImages := []
    autoResizeVideoAssets := none, tokenType := none, steps := none
    guidance := none }

/-- C7 counterexample: there exist two canonical payloads that differ in a
contributing field (the prompt) yet derive the same prompt-hash seed — the
32-bit truncation maps an infinite prompt space into 2^32 values, so
collisions are unavoidable and the claim, as universally stated, is false. -/
theorem c7_counterexample_seed_collision :
    ∃ o1 o2 : SeedOptions, o1.prompt ≠ o2.prompt ∧
      computePromptHashSeed o1 = computePromptHashSeed o2 := by
  obtain ⟨a, b, hne, heq⟩ := Finite.exists_ne_map_eq_of_infinite
    (fun n : Nat =>
      (⟨computePromptHashSeed (promptVariant n), readUInt32BE_hashBytes_lt _⟩ :
        Fin 4294967296))
  refine ⟨promptVariant a, promptVariant b, ?_, ?_⟩
  · simp only [promptVariant]
    intro hcontra
    apply hne
    have hstr : String.mk (natDigits a) = String.mk (natDigits b) := by
      simpa using hcontra
    have hdig : natDigits a = natDigits b := by
      injection hstr
    exact natDigits_injective hdig
  · simpa using congrArg Fin.val heq

/-! ### Serialization injectivity toolkit

JSON string escaping is a decodable code: the body of a string literal
contains no raw quote, so the closing quote delimits it, and the escaped body
determines the original characters.  `chunk` splits an escaped body at its
closing quote; `escDecode` decodes one escaped unit. -/

/-- Split an escaped string body at the first unescaped quote: returns the raw
body and the remainder after the closing quote. -/
def chunk : List Char → Option (List Char × List Char)
  | [] => none
  | c :: r =>
    if c = '"' then some ([], r)
    else if c = '\\' then
      match r with
      | [] => none
      | d :: r2 => (chunk r2).map (fun pr => ('\\' :: d :: pr.1, pr.2))
    else (chunk r).map (fun pr => (c :: pr.1, pr.2))

theorem chunk_cons_quote (r : List Char) : chunk ('"' :: r) = some ([], r) := by
  rw [chunk.eq_def]
  simp

theorem chunk_cons_esc (d : Char) (r : List Char) :
    chunk ('\\' :: d :: r) = (chunk r).map (fun pr => ('\\' :: d :: pr.1, pr.2)) := by
  rw [chunk.eq_def]
  simp

theorem chunk_cons_safe (c : Char) (r : List Char) (h1 : ¬c = '"') (h2 : ¬c = '\\') :
    chunk (c :: r) = (chunk r).map (fun pr => (c :: pr.1, pr.2)) := by
  rw [chunk.eq_def]
  simp [h1, h2]

theorem chunk_safe_prefix :
    ∀ (ds t : List Char), (∀ x ∈ ds, ¬x = '"' ∧ ¬x = '\\') →
      chunk (ds ++ t) = (chunk t).map (fun pr => (ds ++ pr.1, pr.2)) := by
  intro ds
  induction ds with
  | nil =>
    intro t _
    cases h : chunk t <;> simp [h]
  | cons d ds ih =>
    intro t h
    obtain ⟨hd1, hd2⟩ := h d (List.mem_cons_self _ _)
    rw [List.cons_append, chunk_cons_safe d _ hd1 hd2,
      ih t (fun x hx => h x (List.mem_cons_of_mem _ hx))]
    cases chunk t <;> simp

theorem hexDigitChar_safe (k : Nat) (hk : k < 16) :
    ¬hexDigitChar k = '"' ∧ ¬hexDigitChar k = '\\' := by
  interval_cases k <;> exact ⟨by decide, by decide⟩

theorem escChar_shape (c : Char) :
    (escChar c = [c] ∧ ¬c = '"' ∧ ¬c = '\\') ∨
    (∃ d ds, escChar c = '\\' :: d :: ds ∧ ∀ x ∈ ds, ¬x = '"' ∧ ¬x = '\\') := by
  by_cases h1 : c = '"'
  · exact Or.inr ⟨'"', [], by simp [escChar, h1], by simp⟩
  by_cases h2 : c = '\\'
  · exact Or.inr ⟨'\\', [], by simp [escChar, h1, h2], by simp⟩
  by_cases h3 : c.toNat < 32
  · right
    by_cases c8 : c.toNat = 8
    · exact ⟨'b', [], by simp [escChar, h1, h2, h3, c8], by simp⟩
    by_cases c9 : c.toNat = 9
    · exact ⟨'t', [], by simp [escChar, h1, h2, h3, c8, c9], by simp⟩
    by_cases c10 : c.toNat = 10
    · exact ⟨'n', [], by simp [escChar, h1, h2, h3, c8, c9, c10], by simp⟩
    by_cases c12 : c.toNat = 12
    · exact ⟨'f', [], by simp [escChar, h1, h2, h3, c8, c9, c10, c12], by simp⟩
    by_cases c13 : c.toNat = 13
    · exact ⟨'r', [], by simp [escChar, h1, h2, h3, c8, c9, c10, c12, c13], by simp⟩
    · refine ⟨'u', ['0', '0', hexDigitChar (c.toNat / 16), hexDigitChar (c.toNat % 16)],
        by simp [escChar, h1, h2, h3, c8, c9, c10, c12, c13], ?_⟩
      intro x hx
      have hdiv : c.toNat / 16 < 16 := by omega
      have hmod : c.toNat % 16 < 16 := Nat.mod_lt _ (by omega)
      simp only [List.mem_cons, List.not_mem_nil, or_false] at hx
      rcases hx with hx | hx | hx | hx
      · exact ⟨by simp [hx], by simp [hx]⟩
      · exact ⟨by simp [hx], by simp [hx]⟩
      · exact hx ▸ hexDigitChar_safe _ hdiv
      · exact hx ▸ hexDigitChar_safe _ hmod
  · exact Or.inl ⟨by simp [escChar, h1, h2, h3], h1, h2⟩

theorem escStr_cons (c : Char) (cs : List Char) :
    escStr (c :: cs) = escChar c ++ escStr cs := by
  simp [escStr]

theorem chunk_escStr :
    ∀ (s r : List Char), chunk (escStr s ++ '"' :: r) = some (escStr s, r) := by
  intro s
  induction s with
  | nil =>
    intro r
    simp only [escStr, List.flatMap_nil, List.nil_append]
    exact chunk_cons_quote r
  | cons c cs ih =>
    intro r
    rw [escStr_cons, List.append_assoc]
    rcases escChar_shape c with ⟨hc, h1, h2⟩ | ⟨d, ds, hc, hds⟩
    · rw [hc, List.singleton_append, chunk_cons_safe c _ h1 h2, ih r]
      rfl
    · rw [hc, List.cons_append, List.cons_append, chunk_cons_esc,
        chunk_safe_prefix ds _ hds, ih r]
      rfl

/-- Value of a hex digit character emitted by `hexDigitChar`. -/
def hexVal (c : Char) : Nat :=
  if c.toNat ≤ 57 then c.toNat - 48 else c.toNat - 87

theorem hexVal_hexDigitChar (k : Nat) (h : k < 16) : hexVal (hexDigitChar k) = k := by
  interval_cases k <;> decide

/-- Decode one escaped unit produced by `escChar`. -/
def escDecode : List Char → Option (Char × List Char)
  | [] => none
  | c :: r =>
    if c = '\\' then
      match r with
      | [] => none
      | d :: r2 =>
        if d = '"' then some ('"', r2)
        else if d = '\\' then some ('\\', r2)
        else if d = 'b' then some (Char.ofNat 8, r2)
        else if d = 't' then some (Char.ofNat 9, r2)
        else if d = 'n' then some (Char.ofNat 10, r2)
        else if d = 'f' then some (Char.ofNat 12, r2)
        else if d = 'r' then some (Char.ofNat 13, r2)
        else if d = 'u' then
          match r2 with
          | _ :: _ :: h1 :: h2 :: r3 =>
            some (Char.ofNat (16 * hexVal h1 + hexVal h2), r3)
          | _ => none
        else none
    else if c = '"' then none
    else some (c, r)

theorem escDecode_escChar (c : Char) (r : List Char) :
    escDecode (escChar c ++ r) = some (c, r) := by
  by_cases h1 : c = '"'
  · subst h1
    rfl
  by_cases h2 : c = '\\'
  · subst h2
    rfl
  by_cases h3 : c.toNat < 32
  · by_cases c8 : c.toNat = 8
    · have : Char.ofNat 8 = c := by rw [← c8]; exact Char.ofNat_toNat c
      simp [escChar, escDecode, h1, h2, h3, c8]
      exact this
    by_cases c9 : c.toNat = 9
    · have : Char.ofNat 9 = c := by rw [← c9]; exact Char.ofNat_toNat c
      simp [escChar, escDecode, h1, h2, h3, c8, c9]
      exact this
    by_cases c10 : c.toNat = 10
    · have : Char.ofNat 10 = c := by rw [← c10]; exact Char.ofNat_toNat c
      simp [escChar, escDecode, h1, h2, h3, c8, c9, c10]
      exact this
    by_cases c12 : c.toNat = 12
    · have : Char.ofNat 12 = c := by rw [← c12]; exact Char.ofNat_toNat c
      simp [escChar, escDecode, h1, h2, h3, c8, c9, c10, c12]
      exact this
    by_cases c13 : c.toNat = 13
    · have : Char.ofNat 13 = c := by rw [← c13]; exact Char.ofNat_toNat c
      simp [escChar, escDecode, h1, h2, h3, c8, c9, c10, c12, c13]
      exact this
    · have hdiv : c.toNat / 16 < 16 := by omega
      have hmod : c.toNat % 16 < 16 := Nat.mod_lt _ (by omega)
      have hval : 16 * hexVal (hexDigitChar (c.toNat / 16)) +
          hexVal (hexDigitChar (c.toNat % 16)) = c.toNat := by
        rw [hexVal_hexDigitChar _ hdiv, hexVal_hexDigitChar _ hmod]
        omega
      have hchar : Char.ofNat (16 * hexVal (hexDigitChar (c.toNat / 16)) +
          hexVal (hexDigitChar (c.toNat % 16))) = c := by
        rw [hval]; exact Char.ofNat_toNat c
      simp [escChar, escDecode, h1, h2, h3, c8, c9, c10, c12, c13]
      exact hchar
  · simp [escChar, escDecode, h1, h2, h3]

theorem escStr_injective : ∀ s t : List Char, escStr s = escStr t → s = t := by
  intro s
  induction s with
  | nil =>
    intro t h
    cases t with
    | nil => rfl
    | cons b bs =>
      exfalso
      rw [escStr_cons] at h
      have : escDecode (escChar b ++ escStr bs) = some (b, escStr bs) :=
        escDecode_escChar b _
      rw [← h] at this
      simp [escStr, escDecode] at this
  | cons a as ih =>
    intro t h
    cases t with
    | nil =>
      exfalso
      rw [escStr_cons] at h
      have : escDecode (escChar a ++ escStr as) = some (a, escStr as) :=
        escDecode_escChar a _
      rw [h] at this
      simp [escStr, escDecode] at this
    | cons b bs =>
      rw [escStr_cons, escStr_cons] at h
      have ha := escDecode_escChar a (escStr as)
      have hb := escDecode_escChar b (escStr bs)
      rw [h, hb] at ha
      have hpair := Option.some.inj ha
      have hba : b = a := congrArg Prod.fst hpair
      have hesc : escStr bs = escStr as := congrArg Prod.snd hpair
      cases hba
      rw [ih bs hesc.symm]

theorem esc_quote_cancel {a b r1 r2 : List Char}
    (h : escStr a ++ '"' :: r1 = escStr b ++ '"' :: r2) : a = b ∧ r1 = r2 := by
  have h1 := chunk_escStr a r1
  have h2 := chunk_escStr b r2
  rw [h, h2] at h1
  have hpair := Option.some.inj h1
  exact ⟨escStr_injective a b (congrArg Prod.fst hpair).symm,
    (congrArg Prod.snd hpair).symm⟩

theorem jstr_cancel {s1 s2 : String} {r1 r2 : List Char}
    (h : jstr s1 ++ r1 = jstr s2 ++ r2) : s1 = s2 ∧ r1 = r2 := by
  simp only [jstr, jstrL, List.cons_append, List.append_assoc,
    List.singleton_append] at h
  have := List.cons.inj h
  obtain ⟨d1, d2⟩ := esc_quote_cancel this.2
  refine ⟨?_, d2⟩
  cases s1
  cases s2
  exact congrArg String.mk d1

theorem delim_cancel {d : Char} :
    ∀ {xs ys r1 r2 : List Char}, d ∉ xs → d ∉ ys →
      xs ++ d :: r1 = ys ++ d :: r2 → xs = ys ∧ r1 = r2 := by
  intro xs
  induction xs with
  | nil =>
    intro ys r1 r2 _ hy h
    cases ys with
    | nil =>
      refine ⟨rfl, ?_⟩
      simpa using h
    | cons y ys' =>
      exfalso
      have := (List.cons.inj (by simpa using h)).1
      exact hy (this ▸ List.mem_cons_self _ _)
  | cons x xs' ih =>
    intro ys r1 r2 hx hy h
    cases ys with
    | nil =>
      exfalso
      have := (List.cons.inj (by simpa using h)).1
      exact hx (this.symm ▸ List.mem_cons_self _ _)
    | cons y ys' =>
      have hh := List.cons.inj (by simpa using h)
      obtain ⟨hxs, hr⟩ := ih (fun hc => hx (List.mem_cons_of_mem _ hc))
        (fun hc => hy (List.mem_cons_of_mem _ hc)) hh.2
      exact ⟨by rw [hh.1, hxs], hr⟩

theorem ne_of_toNat_ne {a b : Char} (h : ¬a.toNat = b.toNat) : ¬a = b :=
  fun e => h (congrArg Char.toNat e)

theorem natDigits_toNat_range :
    ∀ n, ∀ c ∈ natDigits n, 48 ≤ c.toNat ∧ c.toNat ≤ 57 := by
  intro n
  induction n using Nat.strong_induction_on with
  | _ n ih =>
    intro c hc
    rw [natDigits] at hc
    split at hc
    · next h =>
      simp only [List.mem_singleton] at hc
      subst hc
      rw [toNat_digitChar n h]
      omega
    · next h =>
      rcases List.mem_append.mp hc with hc | hc
      · exact ih (n / 10) (Nat.div_lt_self (by omega) (by omega)) c hc
      · simp only [List.mem_singleton] at hc
        subst hc
        rw [toNat_digitChar (n % 10) (Nat.mod_lt _ (by omega))]
        have := Nat.mod_lt n (show 0 < 10 by omega)
        omega

theorem intChars_toNat_range :
    ∀ (i : Int), ∀ c ∈ intChars i, c.toNat = 45 ∨ (48 ≤ c.toNat ∧ c.toNat ≤ 57) := by
  intro i c hc
  unfold intChars at hc
  split at hc
  · rcases List.mem_cons.mp hc with hc | hc
    · subst hc
      left
      decide
    · exact Or.inr (natDigits_toNat_range _ c hc)
  · exact Or.inr (natDigits_toNat_range _ c hc)

theorem numChars_toNat_range :
    ∀ (q : Rat), ∀ c ∈ numChars q,
      c.toNat = 45 ∨ c.toNat = 46 ∨ (48 ≤ c.toNat ∧ c.toNat ≤ 57) := by
  intro q c hc
  unfold numChars at hc
  split at hc
  · rcases intChars_toNat_range _ c hc with h | h
    · exact Or.inl h
    · exact Or.inr (Or.inr h)
  · rcases List.mem_append.mp hc with hc | hc
    · rcases intChars_toNat_range _ c hc with h | h
      · exact Or.inl h
      · exact Or.inr (Or.inr h)
    · rcases List.mem_cons.mp hc with hc | hc
      · subst hc
        exact Or.inr (Or.inl (by decide))
      · exact Or.inr (Or.inr (natDigits_toNat_range _ c hc))

theorem comma_not_mem_intChars (i : Int) : ',' ∉ intChars i := by
  intro hc
  rcases intChars_toNat_range i ',' hc with h | h <;> simp at h

theorem intChars_injective : ∀ i j : Int, intChars i = intChars j → i = j := by
  intro i j h
  have hdig : ∀ (m : Int), 0 ≤ m → ∀ c ∈ natDigits m.natAbs, ¬c = '-' := by
    intro m _ c hc
    have := natDigits_toNat_range _ c hc
    exact ne_of_toNat_ne (by simp only [show ('-').toNat = 45 from rfl]; omega)
  unfold intChars at h
  split at h <;> split at h
  · next hi hj =>
    have := List.cons.inj h
    have habs : i.natAbs = j.natAbs := natDigits_injective this.2
    omega
  · next hi hj =>
    exfalso
    have hmem : '-' ∈ natDigits j.natAbs := h ▸ List.mem_cons_self _ _
    exact hdig j (by omega) '-' hmem rfl
  · next hi hj =>
    exfalso
    have hmem : '-' ∈ natDigits i.natAbs := h.symm ▸ List.mem_cons_self _ _
    exact hdig i (by omega) '-' hmem rfl
  · next hi hj =>
    have habs : i.natAbs = j.natAbs := natDigits_injective h
    omega

theorem int_comma_cancel {i j : Int} {r1 r2 : List Char}
    (h : intChars i ++ ',' :: r1 = intChars j ++ ',' :: r2) :
    i = j ∧ r1 = r2 := by
  obtain ⟨h1, h2⟩ :=
    delim_cancel (comma_not_mem_intChars i) (comma_not_mem_intChars j) h
  exact ⟨intChars_injective i j h1, h2⟩

theorem jstr_head_quote (s : String) (r : List Char) :
    jstr s ++ r = '"' :: (escStr s.data ++ '"' :: r) := by
  simp [jstr, jstrL]

theorem optStr_skip {v1 v2 : Option String} {r1 r2 : List Char}
    (h : jsonOptStr v1 ++ ',' :: r1 = jsonOptStr v2 ++ ',' :: r2) : r1 = r2 := by
  cases v1 with
  | none =>
    cases v2 with
    | none => simpa [jsonOptStr, jsonNull] using h
    | some s =>
      exfalso
      rw [show (jsonOptStr none ++ ',' :: r1 : List Char) =
            'n' :: ('u' :: 'l' :: 'l' :: ',' :: r1) from rfl,
        show jsonOptStr (some s) = jstr s from rfl, jstr_head_quote] at h
      exact absurd (List.cons.inj h).1 (by decide)
  | some s =>
    cases v2 with
    | none =>
      exfalso
      rw [show (jsonOptStr none ++ ',' :: r2 : List Char) =
            'n' :: ('u' :: 'l' :: 'l' :: ',' :: r2) from rfl,
        show jsonOptStr (some s) = jstr s from rfl, jstr_head_quote] at h
      exact absurd (List.cons.inj h).1 (by decide)
    | some t =>
      rw [show jsonOptStr (some s) = jstr s from rfl,
        show jsonOptStr (some t) = jstr t from rfl] at h
      exact (List.cons.inj (jstr_cancel h).2).2

theorem strArrBody_cancel :
    ∀ (xs ys : List String) (r1 r2 : List Char),
      jsonArrBody (xs.map jstr) ++ ']' :: r1 = jsonArrBody (ys.map jstr) ++ ']' :: r2 →
      xs = ys ∧ r1 = r2 := by
  intro xs
  induction xs with
  | nil =>
    intro ys r1 r2 h
    cases ys with
    | nil =>
      refine ⟨rfl, ?_⟩
      simpa [jsonArrBody] using h
    | cons y ys' =>
      exfalso
      cases ys' with
      | nil =>
        rw [show jsonArrBody (List.map jstr []) ++ ']' :: r1 = ']' :: r1 from rfl,
          show jsonArrBody (List.map jstr [y]) = jstr y from rfl,
          jstr_head_quote] at h
        exact absurd (List.cons.inj h).1 (by decide)
      | cons z zs =>
        rw [show jsonArrBody (List.map jstr []) ++ ']' :: r1 = ']' :: r1 from rfl,
          show jsonArrBody (List.map jstr (y :: z :: zs)) =
            jstr y ++ ',' :: jsonArrBody (List.map jstr (z :: zs)) from rfl,
          List.append_assoc, jstr_head_quote] at h
        exact absurd (List.cons.inj h).1 (by decide)
  | cons x xs' ih =>
    intro ys r1 r2 h
    cases ys with
    | nil =>
      exfalso
      cases xs' with
      | nil =>
        rw [show jsonArrBody (List.map jstr []) ++ ']' :: r2 = ']' :: r2 from rfl,
          show jsonArrBody (List.map jstr [x]) = jstr x from rfl,
          jstr_head_quote] at h
        exact absurd (List.cons.inj h).1 (by decide)
      | cons w ws =>
        rw [show jsonArrBody (List.map jstr []) ++ ']' :: r2 = ']' :: r2 from rfl,
          show jsonArrBody (List.map jstr (x :: w :: ws)) =
            jstr x ++ ',' :: jsonArrBody (List.map jstr (w :: ws)) from rfl,
          List.append_assoc, jstr_head_quote] at h
        exact absurd (List.cons.inj h).1 (by decide)
    | cons y ys' =>
      cases xs' with
      | nil =>
        cases ys' with
        | nil =>
          rw [show jsonArrBody (List.map jstr [x]) = jstr x from rfl,
            show jsonArrBody (List.map jstr [y]) = jstr y from rfl] at h
          obtain ⟨hxy, hP⟩ := jstr_cancel h
          exact ⟨by rw [hxy], (List.cons.inj hP).2⟩
        | cons z zs =>
          exfalso
          rw [show jsonArrBody (List.map jstr [x]) = jstr x from rfl,
            show jsonArrBody (List.map jstr (y :: z :: zs)) =
              jstr y ++ ',' :: jsonArrBody (List.map jstr (z :: zs)) from rfl,
            List.append_assoc] at h
          obtain ⟨_, hP⟩ := jstr_cancel h
          exact absurd (List.cons.inj hP).1 (by decide)
      | cons w ws =>
        cases ys' with
        | nil =>
          exfalso
          rw [show jsonArrBody (List.map jstr [y]) = jstr y from rfl,
            show jsonArrBody (List.map jstr (x :: w :: ws)) =
              jstr x ++ ',' :: jsonArrBody (List.map jstr (w :: ws)) from rfl,
            List.append_assoc] at h
          obtain ⟨_, hP⟩ := jstr_cancel h
          exact absurd (List.cons.inj hP).1 (by decide)
        | cons z zs =>
          rw [show jsonArrBody (List.map jstr (x :: w :: ws)) =
              jstr x ++ ',' :: jsonArrBody (List.map jstr (w :: ws)) from rfl,
            show jsonArrBody (List.map jstr (y :: z :: zs)) =
              jstr y ++ ',' :: jsonArrBody (List.map jstr (z :: zs)) from rfl,
            List.append_assoc, List.append_assoc] at h
          obtain ⟨hxy, hP⟩ := jstr_cancel h
          obtain ⟨hxs, hr⟩ := ih (z :: zs) r1 r2 (List.cons.inj hP).2
          exact ⟨by rw [hxy, hxs], hr⟩

theorem strArr_cancel {xs ys : List String} {r1 r2 : List Char}
    (h : jsonArr (xs.map jstr) ++ r1 = jsonArr (ys.map jstr) ++ r2) :
    xs = ys ∧ r1 = r2 := by
  simp only [jsonArr, List.cons_append, List.append_assoc,
    List.singleton_append] at h
  exact strArrBody_cancel xs ys r1 r2 (List.cons.inj h).2

theorem jsonArrBody_mem :
    ∀ (es : List (List Char)) (x : Char), x ∈ jsonArrBody es →
      (∃ e ∈ es, x ∈ e) ∨ x = ',' := by
  intro es
  induction es with
  | nil => intro x hx; simp [jsonArrBody] at hx
  | cons e es' ih =>
    intro x hx
    cases es' with
    | nil =>
      rw [show jsonArrBody [e] = e from rfl] at hx
      exact Or.inl ⟨e, List.mem_cons_self _ _, hx⟩
    | cons f fs =>
      rw [show jsonArrBody (e :: f :: fs) = e ++ ',' :: jsonArrBody (f :: fs) from rfl] at hx
      rcases List.mem_append.mp hx with hx | hx
      · exact Or.inl ⟨e, List.mem_cons_self _ _, hx⟩
      · rcases List.mem_cons.mp hx with hx | hx
        · exact Or.inr hx
        · rcases ih x hx with ⟨e', he', hxe⟩ | hx
          · exact Or.inl ⟨e', List.mem_cons_of_mem _ he', hxe⟩
          · exact Or.inr hx

theorem rbracket_not_mem_numBody (qs : List Rat) :
    ']' ∉ jsonArrBody (qs.map numChars) := by
  intro hc
  rcases jsonArrBody_mem _ _ hc with ⟨e, he, hxe⟩ | hc
  · obtain ⟨q, _, rfl⟩ := List.mem_map.mp he
    rcases numChars_toNat_range q _ hxe with h | h | h <;> simp at h
  · exact absurd hc (by decide)

theorem numArr_skip {qs1 qs2 : List Rat} {r1 r2 : List Char}
    (h : jsonArr (qs1.map numChars) ++ r1 = jsonArr (qs2.map numChars) ++ r2) :
    r1 = r2 := by
  simp only [jsonArr, List.cons_append, List.append_assoc,
    List.singleton_append] at h
  exact (delim_cancel (rbracket_not_mem_numBody qs1)
    (rbracket_not_mem_numBody qs2) (List.cons.inj h).2).2

/-- Equal serialized payloads force the claim's contributing fields to agree:
the canonical serialization is injective on the prompt, model, width, height,
LoRA id list, every reference asset identity and the context image list (the
payload records them after its `|| ''` defaulting). -/
theorem serialize_fields_eq (o1 o2 : SeedOptions)
    (h : serializePayload o1 = serializePayload o2) :
    o1.prompt.getD "" = o2.prompt.getD "" ∧
    o1.model.getD "" = o2.model.getD "" ∧
    o1.width = o2.width ∧
    o1.height = o2.height ∧
    o1.loras = o2.loras ∧
    o1.refImage.getD "" = o2.refImage.getD "" ∧
    o1.refImageEnd.getD "" = o2.refImageEnd.getD "" ∧
    o1.refAudioPath.getD "" = o2.refAudioPath.getD "" ∧
    o1.refVideoPath.getD "" = o2.refVideoPath.getD "" ∧
    o1.contextImages = o2.contextImages := by
  simp only [serializePayload, List.append_assoc] at h
  have h1 := List.append_cancel_left h
  obtain ⟨hprompt, h2⟩ := jstr_cancel h1
  have h3 := List.append_cancel_left h2
  obtain ⟨hmodel, h4⟩ := jstr_cancel h3
  have h5 := List.append_cancel_left h4
  rw [show (lit ",\"width\":" : List Char) = ',' :: lit "\"width\":" from rfl] at h5
  simp only [List.cons_append] at h5
  have h6 := optStr_skip h5
  have h7 := List.append_cancel_left h6
  rw [show (lit ",\"height\":" : List Char) = ',' :: lit "\"height\":" from rfl] at h7
  simp only [List.cons_append] at h7
  obtain ⟨hwidth, h8⟩ := int_comma_cancel h7
  have h9 := List.append_cancel_left h8
  rw [show (lit ",\"azimuth\":" : List Char) = ',' :: lit "\"azimuth\":" from rfl] at h9
  simp only [List.cons_append] at h9
  obtain ⟨hheight, h10⟩ := int_comma_cancel h9
  have h11 := List.append_cancel_left h10
  obtain ⟨-, h12⟩ := jstr_cancel h11
  have h13 := List.append_cancel_left h12
  obtain ⟨-, h14⟩ := jstr_cancel h13
  have h15 := List.append_cancel_left h14
  obtain ⟨-, h16⟩ := jstr_cancel h15
  have h17 := List.append_cancel_left h16
  obtain ⟨-, h18⟩ := jstr_cancel h17
  have h19 := List.append_cancel_left h18
  obtain ⟨-, h20⟩ := jstr_cancel h19
  have h21 := List.append_cancel_left h20
  obtain ⟨-, h22⟩ := jstr_cancel h21
  have h23 := List.append_cancel_left h22
  obtain ⟨-, h24⟩ := jstr_cancel h23
  have h25 := List.append_cancel_left h24
  obtain ⟨hloras, h26⟩ := strArr_cancel h25
  have h27 := List.append_cancel_left h26
  have h28 := numArr_skip h27
  have h29 := List.append_cancel_left h28
  obtain ⟨hrefImage, h30⟩ := jstr_cancel h29
  have h31 := List.append_cancel_left h30
  obtain ⟨hrefImageEnd, h32⟩ := jstr_cancel h31
  have h33 := List.append_cancel_left h32
  obtain ⟨hrefAudioPath, h34⟩ := jstr_cancel h33
  have h35 := List.append_cancel_left h34
  obtain ⟨hrefVideoPath, h36⟩ := jstr_cancel h35
  have h37 := List.append_cancel_left h36
  obtain ⟨hctx, -⟩ := strArr_cancel h37
  exact ⟨hprompt, hmodel, hwidth, hheight, hloras, hrefImage, hrefImageEnd,
    hrefAudioPath, hrefVideoPath, hctx⟩

/-- C7 (amended): two canonical payloads that differ in a contributing field
— prompt, model, width, height, the LoRA id list, any reference asset
identity, or the context image list — have different canonical serializations,
so the digest is computed over different inputs; only a SHA-256-truncation
collision (which exists by pigeonhole, see the counterexample) can make the
32-bit seeds coincide.  Fractional LoRA strengths are IEEE floats, outside the
integer/string embedding. -/
theorem c7_amended_serialization_injective (o1 o2 : SeedOptions)
    (hne : ¬ o1.prompt.getD "" = o2.prompt.getD "" ∨
           ¬ o1.model.getD "" = o2.model.getD "" ∨
           ¬ o1.width = o2.width ∨
           ¬ o1.height = o2.height ∨
           ¬ o1.loras = o2.loras ∨
           ¬ o1.refImage.getD "" = o2.refImage.getD "" ∨
           ¬ o1.refImageEnd.getD "" = o2.refImageEnd.getD "" ∨
           ¬ o1.refAudioPath.getD "" = o2.refAudioPath.getD "" ∨
           ¬ o1.refVideoPath.getD "" = o2.refVideoPath.getD "" ∨
           ¬ o1.contextImages = o2.contextImages) :
    ¬ serializePayload o1 = serializePayload o2 := by
  intro h
  obtain ⟨e1, e2, e3, e4, e5, e6, e7, e8, e9, e10⟩ := serialize_fields_eq o1 o2 h
  rcases hne with hc | hc | hc | hc | hc | hc | hc | hc | hc | hc <;>
    [exact hc e1; exact hc e2; exact hc e3; exact hc e4; exact hc e5;
     exact hc e6; exact hc e7; exact hc e8; exact hc e9; exact hc e10]

/-- C7 witness: two payloads differing only in the prompt have different
serializations. -/
theorem c7_amended_serialization_injective_witness :
    ¬ serializePayload { promptVariant 0 with prompt := some "a cat" } =
      serializePayload { promptVariant 0 with prompt := some "a dog" } := by
  exact c7_amended_serialization_injective _ _ (Or.inl (by decide))

end SogniGen
